import Mathlib

/-!
# Logger: a buffered logging facade over a ring buffer and a sink

A shallow embedding of `Logger/Logger.cpp` and `Logger/Logger.hpp`.

* C `char` data is `List Byte`; a pointer into a buffer is the list of bytes readable from it,
  `none` standing for `nullptr`.
* Member functions take the object as their first argument and return the new object next to
  their C++ return value.
* Calls into the C library and the operating system go through an explicit `World`, which holds
  the answers the system will give and the record of the calls made.
* `RingBuffer.hpp` is not part of the sources; the ring buffer is modelled from the
  specification of its contract.
-/

set_option autoImplicit false

/-- A C `char`. -/
abbrev Byte := UInt8

/-- The bytes of a C string literal (without the terminating NUL). -/
def cstr (s : String) : List Byte := s.data.map (fun c => c.toNat.toUInt8)

/-- The value of `std::numeric_limits<int>::max()`. -/
def INT_MAX : Nat := 2147483647

/-! ## Types of `Logger.hpp` -/

/-- The enumeration `Logger::LogLevel`, in declaration order. -/
inductive LogLevel
  | Debug
  | Info
  | Warning
  | Error
  | Fatal
deriving DecidableEq, Repr

/-- The underlying value of a `LogLevel` enumerator; `>=` on levels compares these. -/
def LogLevel.toNat : LogLevel → Nat
  | LogLevel.Debug => 0
  | LogLevel.Info => 1
  | LogLevel.Warning => 2
  | LogLevel.Error => 3
  | LogLevel.Fatal => 4

/-- The enumeration `Logger::SinkBackend`. -/
inductive SinkBackend
  | STDIO
  | POSIX
  | WINDOWS
deriving DecidableEq, Repr

/-- The enumeration `Logger::SinkTarget`. -/
inductive SinkTarget
  | STDERR
  | STDOUT
  | FILE
deriving DecidableEq, Repr

/-- The constant `Logger::BUFFER_SIZE = 1ULL << 20`. -/
def BUFFER_SIZE : Nat := 2 ^ 20

/-- The constant `Logger::MAX_LINE_LENGTH = 1ULL << 8`. -/
def MAX_LINE_LENGTH : Nat := 2 ^ 8

/-! ## The ring buffer -/

/-- Modelled from the spec: `RingBuffer.hpp` is missing from the sources. The data model of
section 3: a backing store of `capacity` bytes, the two cursors (taken modulo `capacity`) and
the count of unread bytes. -/
structure RingBuffer where
  storage : List Byte
  capacity : Nat
  write_cursor : Nat
  read_cursor : Nat
  used_count : Nat
deriving DecidableEq, Repr

namespace RingBuffer

/-- Modelled from the spec: the invariant the RingBuffer contract maintains,
`0 ≤ used_count ≤ capacity` with a non-zero capacity, cursors inside the storage, and the write
cursor `used_count` bytes ahead of the read cursor. -/
def WF (rb : RingBuffer) : Prop :=
  rb.storage.length = rb.capacity ∧ 0 < rb.capacity ∧ rb.read_cursor < rb.capacity ∧
    rb.used_count ≤ rb.capacity ∧
    rb.write_cursor = (rb.read_cursor + rb.used_count) % rb.capacity

instance (rb : RingBuffer) : Decidable rb.WF := by
  unfold WF
  infer_instance

/-- Modelled from the spec: `capacity() -> C`. -/
def get_capacity (rb : RingBuffer) : Nat := rb.capacity

/-- Modelled from the spec: `used_count() -> n`. -/
def get_used_size (rb : RingBuffer) : Nat := rb.used_count

/-- Modelled from the spec: one byte copied at the write cursor, which then advances modulo
`capacity`; the step `append` repeats. -/
def put (rb : RingBuffer) (b : Byte) : RingBuffer :=
  { rb with
    storage := rb.storage.set rb.write_cursor b
    write_cursor := (rb.write_cursor + 1) % rb.capacity
    used_count := rb.used_count + 1 }

/-- Modelled from the spec: `append(bytes) -> success`, called `enqueue(ptr, count)` by the
Logger. All-or-nothing: succeeds only if `count ≤ free_space`, then copies the bytes
contiguously (wrapping as needed) and increases `used_count`; on failure the buffer is
unchanged. -/
def enqueue (rb : RingBuffer) (ptr : List Byte) (count : Nat) : Bool × RingBuffer :=
  if count ≤ rb.capacity - rb.used_count then (true, (ptr.take count).foldl put rb)
  else (false, rb)

/-- Modelled from the spec: the length of `next_contiguous_run()`, the longest run of unread
bytes starting at the read cursor without wrapping. -/
def get_direct_dequeue_size (rb : RingBuffer) : Nat :=
  min rb.used_count (rb.capacity - rb.read_cursor)

/-- Modelled from the spec: the pointer of `next_contiguous_run()`, pointing at the read
cursor inside the storage. -/
def get_direct_dequeue_ptr (rb : RingBuffer) : Option (List Byte) :=
  some (rb.storage.drop rb.read_cursor)

/-- Modelled from the spec: `advance_read(n)` marks `n` bytes consumed: decreases
`used_count` and advances the read cursor modulo `capacity`. -/
def advance_read_index (rb : RingBuffer) (n : Nat) : RingBuffer :=
  { rb with
    read_cursor := (rb.read_cursor + n) % rb.capacity
    used_count := rb.used_count - n }

/-- Modelled from the spec: the unread byte sequence, oldest first: the `used_count` bytes
from the read cursor on, wrapping at the end of the storage. -/
def unread (rb : RingBuffer) : List Byte :=
  (List.range rb.used_count).map
    (fun i => rb.storage.getD ((rb.read_cursor + i) % rb.capacity) 0)

/-- Modelled from the spec: a freshly constructed buffer of capacity `C`. -/
def create (C : Nat) : RingBuffer :=
  { storage := List.replicate C 0, capacity := C, write_cursor := 0, read_cursor := 0,
    used_count := 0 }

end RingBuffer

/-! ## Rendering a line -/

/-- The function `loglevel_to_cstr`. The `default:` branch of the source is not reachable from
a `LogLevel` enumerator. -/
def loglevel_to_cstr : LogLevel → List Byte
  | LogLevel.Debug => cstr "DEBUG"
  | LogLevel.Info => cstr "INFO"
  | LogLevel.Warning => cstr "WARNING"
  | LogLevel.Error => cstr "ERROR"
  | LogLevel.Fatal => cstr "FATAL"

/-- A `std::string_view`: `data()` (the bytes readable from it, or `nullptr`) and `size()`. -/
structure StringView where
  data : Option (List Byte)
  size : Nat
deriving DecidableEq, Repr

/-- The view of a byte string held in memory. -/
def StringView.of (m : List Byte) : StringView := { data := some m, size := m.length }

/-- A store of `bytes` into the array `buffer` from index `off` on. `none` when an index
written is not below the length of the array. -/
def store_bytes (buffer : List Byte) (off : Nat) (bytes : List Byte) : Option (List Byte) :=
  if off + bytes.length ≤ buffer.length then
    some (buffer.take off ++ bytes ++ buffer.drop (off + bytes.length))
  else none

/-- The value a `printf`-family call returns for an output of `n` characters: `n`, or a
negative value when `n` does not fit in an `int` (`EOVERFLOW`). -/
def printf_ret (n : Nat) : Int := if n ≤ INT_MAX then (n : Int) else -1

/-- The call `std::vsnprintf(buffer + off, size, ...)` whose format expands to `text`: at most
`size - 1` characters of `text` are stored, followed by a NUL; the return value counts the
whole of `text`. -/
def vsnprintf (buffer : List Byte) (off size : Nat) (text : List Byte) :
    Option (List Byte × Int) :=
  if size = 0 then some (buffer, printf_ret text.length)
  else (store_bytes buffer off (text.take (size - 1) ++ [0])).map
    (fun b => (b, printf_ret text.length))

/-- The call `std::snprintf(buffer, size, ...)` whose format expands to `text`. -/
def snprintf (buffer : List Byte) (size : Nat) (text : List Byte) : Option (List Byte × Int) :=
  vsnprintf buffer 0 size text

/-- The call `std::sprintf(buffer, ...)` whose format expands to `text`: all of `text` is
stored, followed by a NUL. -/
def sprintf (buffer : List Byte) (text : List Byte) : Option (List Byte × Int) :=
  (store_bytes buffer 0 (text ++ [0])).map (fun b => (b, printf_ret text.length))

/-- The expansion of `"[%s] "` at `level_name`. -/
def fmt_level (level_name : List Byte) : List Byte :=
  cstr "[" ++ level_name ++ cstr "] "

/-- The expansion of `"%.*s"` at a precision and a pointer: the characters up to the first
NUL, at most `precision` of them. -/
def fmt_precision (precision : Nat) (data : List Byte) : List Byte :=
  (data.take precision).takeWhile (fun c => c != 0)

/-! ## The sink and the system it writes to -/

/-- A call to the C library or the operating system, with its arguments and what it gave
back. A write records the bytes the system accepted. -/
inductive OsCall
  | fopen (path : List Byte) (ret : Nat)
  | fclose (fp : Nat)
  | fwrite (fp : Nat) (count : Nat) (accepted : List Byte)
  | fflush (fp : Nat) (ret : Int)
  | sys_open (path : List Byte) (ret : Int)
  | sys_close (fd : Int)
  | sys_write (fd : Int) (count : Nat) (ret : Int) (accepted : List Byte)
  | GetStdHandle (use_stderr : Bool) (ret : Int)
  | CreateFileW (path : List Byte) (ret : Int)
  | WriteFile (handle : Int) (count : Nat) (accepted : List Byte)
  | CloseHandle (handle : Int)
deriving DecidableEq, Repr

/-- The system the Logger runs on: whether `_WIN32` is defined, the answers it will give to
the calls still to come (one per call; every call fails once they are used up), and the calls
made so far, oldest first. A write call is never answered with more bytes than it asked for:
`fwrite`, `write` and `WriteFile` take the answer capped at the requested count. -/
structure World where
  win32 : Bool
  responses : List Int
  trace : List OsCall
deriving DecidableEq, Repr

namespace World

/-- The answer to the next call. -/
def answer (w : World) : Int := w.responses.headD (-1)

/-- The world after a call `c` that used up one answer. -/
def called (w : World) (c : OsCall) : World :=
  { w with responses := w.responses.tail, trace := w.trace ++ [c] }

/-- The world after a call `c` that cannot fail and uses no answer. -/
def noted (w : World) (c : OsCall) : World :=
  { w with trace := w.trace ++ [c] }

end World

/-- The bytes a write call made the system accept. -/
def OsCall.accepted_bytes : OsCall → List Byte
  | OsCall.fwrite _ _ a => a
  | OsCall.sys_write _ _ _ a => a
  | OsCall.WriteFile _ _ a => a
  | _ => []

/-- Whether a call releases a handle (`fclose`, `close`, `CloseHandle`). -/
def OsCall.is_release : OsCall → Bool
  | OsCall.fclose _ => true
  | OsCall.sys_close _ => true
  | OsCall.CloseHandle _ => true
  | _ => false

/-- Whether a call is a write or a stream flush. -/
def OsCall.is_output : OsCall → Bool
  | OsCall.fwrite _ _ _ => true
  | OsCall.sys_write _ _ _ _ => true
  | OsCall.WriteFile _ _ _ => true
  | OsCall.fflush _ _ => true
  | _ => false

/-- The bytes accepted by the system over a sequence of calls, in call order. -/
def accepted (calls : List OsCall) : List Byte :=
  calls.flatMap OsCall.accepted_bytes

/-- The stream `stdout` as a `FILE *` (a non-null pointer). -/
def stdout_fp : Nat := 1

/-- The stream `stderr` as a `FILE *` (a non-null pointer, distinct from `stdout`). -/
def stderr_fp : Nat := 2

/-- The descriptor `STDOUT_FILENO`. -/
def STDOUT_FILENO : Int := 1

/-- The descriptor `STDERR_FILENO`. -/
def STDERR_FILENO : Int := 2

/-- The handle value `INVALID_HANDLE_VALUE`; the null handle is `0`. -/
def INVALID_HANDLE_VALUE : Int := -1

/-- The union `Sink::handle`: the member last stored. -/
inductive Handle
  | fp (p : Nat)
  | fd (n : Int)
  | windows_handle (h : Int)
deriving DecidableEq, Repr

/-- The structure `Logger::Sink`. An empty `filepath` is the empty path. -/
structure Sink where
  backend : SinkBackend
  target : SinkTarget
  filepath : List Byte
  handle : Handle
deriving DecidableEq, Repr

/-- The structure `Logger`. -/
structure Logger where
  buffer : RingBuffer
  sink : Sink
  threshold : LogLevel
deriving DecidableEq, Repr

namespace Handle

/-- The member `fp` of the union. Reading a member other than the one last stored does not
happen from a sink built by the constructor and the setters; the accessors answer with the
"not open" value of the member there. -/
def get_fp : Handle → Nat
  | Handle.fp p => p
  | _ => 0

/-- The member `fd` of the union. -/
def get_fd : Handle → Int
  | Handle.fd n => n
  | _ => -1

/-- The member `windows_handle` of the union. -/
def get_windows_handle : Handle → Int
  | Handle.windows_handle h => h
  | _ => INVALID_HANDLE_VALUE

end Handle

namespace Sink

/-- The constructor `Sink::Sink()`. -/
def create : Sink :=
  { backend := SinkBackend.STDIO, target := SinkTarget.STDERR, filepath := [],
    handle := Handle.fp stderr_fp }

/-- The function `Sink::close`. -/
def close (self : Sink) (w : World) : Sink × World :=
  if self.target ≠ SinkTarget.FILE then (self, w)
  else
    match self.backend with
    | SinkBackend.STDIO =>
      let fp := self.handle.get_fp
      ({ self with handle := Handle.fp 0 },
        if fp ≠ 0 then w.noted (OsCall.fclose fp) else w)
    | SinkBackend.POSIX =>
      let fd := self.handle.get_fd
      ({ self with handle := Handle.fd (-1) },
        if 0 ≤ fd then w.noted (OsCall.sys_close fd) else w)
    | SinkBackend.WINDOWS =>
      if w.win32 then
        let handle := self.handle.get_windows_handle
        ({ self with handle := Handle.windows_handle INVALID_HANDLE_VALUE },
          if handle ≠ 0 ∧ handle ≠ INVALID_HANDLE_VALUE then w.noted (OsCall.CloseHandle handle)
          else w)
      else (self, w)

/-- The destructor `Sink::~Sink()`. -/
def destroy (self : Sink) (w : World) : World := (self.close w).2

/-- The function `Sink::open` (`open` is a keyword here). -/
def open_ (self : Sink) (w : World) : Bool × Sink × World :=
  match self.target with
  | SinkTarget.FILE =>
    if self.filepath = [] then (false, self, w)
    else
      match self.backend with
      | SinkBackend.STDIO =>
        let fp := w.answer.toNat
        (decide (fp ≠ 0), { self with handle := Handle.fp fp },
          w.called (OsCall.fopen self.filepath fp))
      | SinkBackend.POSIX =>
        let fd : Int := if w.answer < 0 then -1 else w.answer
        (decide (0 ≤ fd), { self with handle := Handle.fd fd },
          w.called (OsCall.sys_open self.filepath fd))
      | SinkBackend.WINDOWS =>
        if w.win32 then
          let h := w.answer
          (decide (h ≠ INVALID_HANDLE_VALUE), { self with handle := Handle.windows_handle h },
            w.called (OsCall.CreateFileW self.filepath h))
        else (false, self, w)
  | target =>
    let use_stderr := decide (target = SinkTarget.STDERR)
    match self.backend with
    | SinkBackend.STDIO =>
      (true, { self with handle := Handle.fp (if use_stderr then stderr_fp else stdout_fp) }, w)
    | SinkBackend.POSIX =>
      (true,
        { self with handle := Handle.fd (if use_stderr then STDERR_FILENO else STDOUT_FILENO) },
        w)
    | SinkBackend.WINDOWS =>
      if w.win32 then
        let h := w.answer
        (decide (h ≠ INVALID_HANDLE_VALUE), { self with handle := Handle.windows_handle h },
          w.called (OsCall.GetStdHandle use_stderr h))
      else (true, self, w)

/-- The loop of `Sink::write` for the POSIX backend. The system accepts at most the `chunk`
it is asked for. `fuel` bounds the number of rounds; every round takes at least one byte off
`count`, so `fuel = count` is never used up before `count` is. -/
def write_loop_posix (fd : Int) :
    Nat → List Byte → Nat → Nat → World → Nat × World
  | 0, _, _, bytes_done, w => (bytes_done, w)
  | fuel + 1, buffer, count, bytes_done, w =>
    if count = 0 then (bytes_done, w)
    else
      let chunk := min count INT_MAX
      let bytes_written : Int := if w.answer ≤ 0 then w.answer else min w.answer chunk
      let w1 := w.called (OsCall.sys_write fd chunk bytes_written
        ((buffer.drop bytes_done).take bytes_written.toNat))
      if bytes_written ≤ 0 then (bytes_done, w1)
      else
        write_loop_posix fd fuel buffer (count - bytes_written.toNat)
          (bytes_done + bytes_written.toNat) w1

/-- The loop of `Sink::write` for the Windows backend; a `WriteFile` that fails and one that
writes nothing both leave the loop. -/
def write_loop_windows (handle : Int) :
    Nat → List Byte → Nat → Nat → World → Nat × World
  | 0, _, _, bytes_done, w => (bytes_done, w)
  | fuel + 1, buffer, count, bytes_done, w =>
    if count = 0 then (bytes_done, w)
    else
      let chunk := min count (2 ^ 32 - 1)
      let bytes_written : Nat := min w.answer.toNat chunk
      let w1 := w.called (OsCall.WriteFile handle chunk
        ((buffer.drop bytes_done).take bytes_written))
      if bytes_written = 0 then (bytes_done, w1)
      else
        write_loop_windows handle fuel buffer (count - bytes_written)
          (bytes_done + bytes_written) w1

/-- The function `Sink::write`: the number of bytes of `buffer[0 .. count)` the system
accepted. -/
def write (self : Sink) (buffer : Option (List Byte)) (count : Nat) (w : World) : Nat × World :=
  match buffer with
  | none => (0, w)
  | some buffer =>
    if count = 0 then (0, w)
    else
      match self.backend with
      | SinkBackend.STDIO =>
        let fp := self.handle.get_fp
        if fp ≠ 0 then
          let ret := min w.answer.toNat count
          (ret, w.called (OsCall.fwrite fp count (buffer.take ret)))
        else (0, w)
      | SinkBackend.POSIX =>
        let fd := self.handle.get_fd
        if 0 ≤ fd then write_loop_posix fd count buffer count 0 w else (0, w)
      | SinkBackend.WINDOWS =>
        if w.win32 then
          let handle := self.handle.get_windows_handle
          if handle ≠ 0 ∧ handle ≠ INVALID_HANDLE_VALUE then
            write_loop_windows handle count buffer count 0 w
          else (0, w)
        else (0, w)

/-- The move assignment `Sink::operator=(Sink &&other)` between two distinct objects: the
new value of `*this`, the value left in `other`, and the world after the `close`. -/
def move_assign (self other : Sink) (w : World) : Sink × Sink × World :=
  let (_, w1) := self.close w
  ({ backend := other.backend, target := other.target, filepath := other.filepath,
     handle := other.handle },
   { backend := SinkBackend.STDIO, target := SinkTarget.STDERR, filepath := [],
     handle := Handle.fp stderr_fp },
   w1)

end Sink

namespace Logger

/-- The function `Logger::is_enabled`. -/
def is_enabled (self : Logger) (level : LogLevel) : Bool :=
  decide (self.threshold.toNat ≤ level.toNat)

/-- The function `Logger::get_threshold`. -/
def get_threshold (self : Logger) : LogLevel := self.threshold

/-- The function `Logger::set_threshold`. -/
def set_threshold (self : Logger) (level : LogLevel) : Logger :=
  { self with threshold := level }

/-- The last lines of both `log` overloads: the newline is stored at index `written`, or at
index `sizeof(buffer) - 2` when `written` is `sizeof(buffer) - 1`, and the first `written`
bytes of the line buffer are enqueued. `none` when a store falls outside the line buffer. -/
def terminate_and_enqueue (self : Logger) (buffer : List Byte) (written : Nat) :
    Option (Bool × Logger) :=
  let stored : Option (List Byte × Nat) :=
    if written = buffer.length - 1 then
      (store_bytes buffer (buffer.length - 2) (cstr "\n")).map (fun b => (b, written))
    else (store_bytes buffer written (cstr "\n")).map (fun b => (b, written + 1))
  stored.map (fun (buffer, written) =>
    ((self.buffer.enqueue buffer written).1,
      { self with buffer := (self.buffer.enqueue buffer written).2 }))

/-- The function `Logger::log(LogLevel, std::string_view)`. The line buffer
`char buffer[MAX_LINE_LENGTH]` starts with indeterminate contents, taken as zeros. `none` when
a store falls outside the line buffer. -/
def log (self : Logger) (level : LogLevel) (str : StringView) : Option (Bool × Logger) :=
  let buffer : List Byte := List.replicate MAX_LINE_LENGTH 0
  if ¬ self.is_enabled level then some (true, self)
  else if str.data = none ∧ str.size ≠ 0 then some (false, self)
  else
    let str : StringView := if str.data = none then { data := some [], size := 0 } else str
    let level_name := loglevel_to_cstr level
    match snprintf buffer buffer.length
        (fmt_level level_name ++ fmt_precision (min str.size INT_MAX) (str.data.getD [])) with
    | none => none
    | some (buffer, snprintf_ret) =>
      if snprintf_ret < 0 then some (false, self)
      else
        let written := min (buffer.length - 1) snprintf_ret.toNat
        terminate_and_enqueue self buffer written

/-- The function `Logger::log(LogLevel, const char *fmtstr, ...)`. The format string and its
arguments enter only through the text they expand to: `fmtstr` is `none` for `nullptr` and
otherwise the expansion of the format at the arguments. -/
def log_fmt (self : Logger) (level : LogLevel) (fmtstr : Option (List Byte)) :
    Option (Bool × Logger) :=
  let buffer : List Byte := List.replicate MAX_LINE_LENGTH 0
  if ¬ self.is_enabled level then some (true, self)
  else
    match fmtstr with
    | none => some (false, self)
    | some expansion =>
      let level_name := loglevel_to_cstr level
      match sprintf buffer (fmt_level level_name) with
      | none => none
      | some (buffer, sprintf_ret) =>
        if sprintf_ret < 0 then some (false, self)
        else
          match vsnprintf buffer sprintf_ret.toNat (buffer.length - sprintf_ret.toNat)
              expansion with
          | none => none
          | some (buffer, vsnprintf_ret) =>
            if vsnprintf_ret < 0 then some (false, self)
            else
              let written := min (buffer.length - 1) (sprintf_ret.toNat + vsnprintf_ret.toNat)
              terminate_and_enqueue self buffer written

/-- The `while` loop of `Logger::flush`. The Boolean is `false` when the loop left through
`return false` and `true` when it ended (its condition failed, or `break`). `none` when `fuel`
rounds did not end the loop. -/
def flush_loop (fuel : Nat) (self : Logger) (w : World) : Option (Bool × Logger × World) :=
  if self.buffer.get_used_size = 0 then some (true, self, w)
  else
    match fuel with
    | 0 => none
    | fuel + 1 =>
      let count := self.buffer.get_direct_dequeue_size
      if count = 0 then some (true, self, w)
      else
        let ptr := self.buffer.get_direct_dequeue_ptr
        let res := self.sink.write ptr count w
        let bytes_written := res.1
        if bytes_written = 0 then some (false, self, res.2)
        else
          flush_loop fuel { self with buffer := self.buffer.advance_read_index bytes_written }
            res.2

/-- The lines of `Logger::flush` after the loop: the stream-level flush of the STDIO
backend. -/
def flush_stream (self : Logger) (w : World) : Bool × Logger × World :=
  if self.sink.backend = SinkBackend.STDIO ∧ self.sink.handle.get_fp ≠ 0 then
    let ret := w.answer
    let w1 := w.called (OsCall.fflush self.sink.handle.get_fp ret)
    if ret ≠ 0 then (false, self, w1) else (true, self, w1)
  else (true, self, w)

/-- The function `Logger::flush`. Every round of the loop consumes at least one unread byte,
so `used_count` rounds are enough (`flush_loop_total`); the `none` branch is never taken. -/
def flush (self : Logger) (w : World) : Bool × Logger × World :=
  match flush_loop self.buffer.get_used_size self w with
  | none => (false, self, w)
  | some (false, self1, w1) => (false, self1, w1)
  | some (true, self1, w1) => flush_stream self1 w1

/-- The common end of the four setters: `if (!new_sink.open()) return false;`, then
`this->flush(); this->sink = std::move(new_sink); return true;`, with `new_sink` destroyed on
return. -/
def install (self : Logger) (new_sink : Sink) (w : World) : Bool × Logger × World :=
  let opened := new_sink.open_ w
  if ¬ opened.1 then (false, self, opened.2.1.destroy opened.2.2)
  else
    let flushed := self.flush opened.2.2
    let moved := flushed.2.1.sink.move_assign opened.2.1 flushed.2.2
    (true, { flushed.2.1 with sink := moved.1 }, moved.2.1.destroy moved.2.2)

/-- The function `Logger::set_backend`, in the executions where copying the path does not
throw. -/
def set_backend (self : Logger) (backend : SinkBackend) (w : World) : Bool × Logger × World :=
  let new_sink := Sink.create
  let new_sink := { new_sink with backend := backend }
  let new_sink := { new_sink with target := self.sink.target }
  let new_sink := { new_sink with filepath := self.sink.filepath }
  install self new_sink w

/-- The function `Logger::set_target_stdout`. -/
def set_target_stdout (self : Logger) (w : World) : Bool × Logger × World :=
  let new_sink := Sink.create
  let new_sink := { new_sink with backend := self.sink.backend }
  let new_sink := { new_sink with target := SinkTarget.STDOUT }
  install self new_sink w

/-- The function `Logger::set_target_stderr`. -/
def set_target_stderr (self : Logger) (w : World) : Bool × Logger × World :=
  let new_sink := Sink.create
  let new_sink := { new_sink with backend := self.sink.backend }
  let new_sink := { new_sink with target := SinkTarget.STDERR }
  install self new_sink w

/-- The function `Logger::set_target_file`, in the executions where copying the path does not
throw. An empty path returns before anything is done to `new_sink`, which is then destroyed. -/
def set_target_file (self : Logger) (filepath : List Byte) (w : World) :
    Bool × Logger × World :=
  let new_sink := Sink.create
  if filepath = [] then (false, self, new_sink.destroy w)
  else
    let new_sink := { new_sink with backend := self.sink.backend }
    let new_sink := { new_sink with target := SinkTarget.FILE }
    let new_sink := { new_sink with filepath := filepath }
    install self new_sink w

/-- The constructor `Logger::Logger()` with a ring buffer of capacity `C` (`BUFFER_SIZE` in
the source, which aborts on a capacity of 0). -/
def create (C : Nat) : Logger :=
  { buffer := RingBuffer.create C, sink := Sink.create, threshold := LogLevel.Info }

end Logger

/-! ## Vocabulary of the statements -/

/-- The outcome of one `enqueue` of the bytes `line` on the Logger's ring buffer: the result
of the `enqueue`, and the Logger with the buffer it leaves. -/
def Logger.enqueue_line (self : Logger) (line : List Byte) : Bool × Logger :=
  ((self.buffer.enqueue line line.length).1,
    { self with buffer := (self.buffer.enqueue line line.length).2 })

/-- The calls `evs` are what leads from the world `w` to the world `w1`, and none of them
releases a handle. -/
def World.leads (w w1 : World) (evs : List OsCall) : Prop :=
  w1.trace = w.trace ++ evs ∧ w1.win32 = w.win32 ∧ ∀ c ∈ evs, c.is_release = false

/-- The calls `evs` lead from `w` to `w1` and none of them writes, flushes a stream or
releases a handle. -/
def World.quiet (w w1 : World) : Prop :=
  ∃ evs, w1.trace = w.trace ++ evs ∧
    ∀ c ∈ evs, c.is_output = false ∧ c.is_release = false

/-- The invariant of a sink the constructor and the setters keep: a `FILE` target comes with
a non-empty path. -/
def Sink.path_ok (s : Sink) : Prop := s.target = SinkTarget.FILE → s.filepath ≠ []

/-- The outcome of a setter that changed nothing: it returned `false`, the Logger (active
sink with its backend, target, path and handle, ring buffer, threshold) is the one before the
call, no call made meanwhile writes or flushes a stream and, the active sink keeping
`path_ok`, none releases a handle. -/
def Logger.untouched (self : Logger) (w : World) (res : Bool × Logger × World) : Prop :=
  res.1 = false ∧ res.2.1 = self ∧
    ∃ evs, res.2.2.trace = w.trace ++ evs ∧ (∀ c ∈ evs, c.is_output = false) ∧
      (self.sink.path_ok → ∀ c ∈ evs, c.is_release = false)

/-- The outcome of a setter that switched the sink: from the world `w0` the opening of the new
sink left (no write, no stream flush, no release so far), `flush` ran on the Logger with its
old sink; the ring buffer is the one that `flush` left, whatever its result; the calls made
after it write nothing; and when that `flush` returned `true`, the ring buffer is empty and
every byte that was unread before the call has been accepted through the old sink. -/
def Logger.switched (self : Logger) (w : World) (res : Bool × Logger × World) : Prop :=
  ∃ w0 evs_close, w.quiet w0 ∧
    res.2.1.buffer = (self.flush w0).2.1.buffer ∧
    res.2.1.threshold = self.threshold ∧
    res.2.2.trace = (self.flush w0).2.2.trace ++ evs_close ∧
    (∀ c ∈ evs_close, c.is_output = false) ∧
    ((self.flush w0).1 = true →
      res.2.1.buffer.get_used_size = 0 ∧
      accepted res.2.2.trace = accepted w.trace ++ self.buffer.unread)

/-! ## Concrete Loggers, sinks and systems -/

/-- A Logger whose five unread bytes `abcde` wrap around the end of a storage of eight. -/
def wrapped_logger : Logger :=
  { buffer :=
      { storage := cstr "de???abc", capacity := 8, write_cursor := 2, read_cursor := 5,
        used_count := 5 },
    sink := Sink.create, threshold := LogLevel.Info }

/-- A system that accepts two bytes, then one, then one, and then refuses. -/
def slow_world : World := { win32 := false, responses := [2, 5, 1, 0], trace := [] }

/-- A system that accepts whatever it is asked to write and flushes the stream. -/
def willing_world : World := { win32 := false, responses := [8, 8, 0], trace := [] }

/-- A system that refuses: it accepts no byte and opens no file. -/
def refusing_world : World := { win32 := false, responses := [0], trace := [] }

/-- An empty Logger of capacity 16 with the threshold `Warning`. -/
def warning_logger : Logger := { Logger.create 16 with threshold := LogLevel.Warning }

/-- An empty Logger of capacity 512 with the threshold `Info`. -/
def roomy_logger : Logger := Logger.create 512

/-- A message of 247 bytes: with `"[ERROR] "` and the newline it makes a line of exactly 256
bytes. -/
def message_247 : List Byte := List.replicate 247 97

/-- A message of 300 bytes. -/
def message_300 : List Byte := List.replicate 300 97

/-- A message of `2^31 - 8` bytes: with `"[ERROR] "` it is one byte longer than `INT_MAX`. -/
def message_huge : List Byte := List.replicate 2147483640 97

/-- A Logger whose ring buffer holds the three unread bytes `abc`. -/
def pending_logger : Logger :=
  { buffer :=
      { storage := cstr "abc?????", capacity := 8, write_cursor := 3, read_cursor := 0,
        used_count := 3 },
    sink := Sink.create, threshold := LogLevel.Info }

/-- A system that refuses the first write and accepts what comes later. -/
def stalled_world : World := { win32 := false, responses := [0, 3, 0], trace := [] }

/-- A sink on an open file. -/
def file_sink : Sink :=
  { backend := SinkBackend.STDIO, target := SinkTarget.FILE, filepath := cstr "a.log",
    handle := Handle.fp 7 }

/-! ## Facts about the ring buffer -/

theorem take_eq_map_getD (l : List Byte) (k : Nat) (h : k ≤ l.length) :
    l.take k = (List.range k).map (fun i => l.getD i 0) := by
  apply List.ext_getElem
  · simp [h]
  · intro i h1 h2
    simp at h1
    simp [List.getD_eq_getElem?_getD, List.getElem?_eq_getElem (show i < l.length by omega)]

namespace RingBuffer

theorem WF_advance (rb : RingBuffer) (k : Nat) (hwf : rb.WF) (hk : k ≤ rb.used_count) :
    (rb.advance_read_index k).WF := by
  obtain ⟨h1, h2, h3, h4, h5⟩ := hwf
  refine ⟨h1, h2, Nat.mod_lt _ h2, ?_, ?_⟩
  · show rb.used_count - k ≤ rb.capacity
    omega
  · show rb.write_cursor = ((rb.read_cursor + k) % rb.capacity + (rb.used_count - k)) % rb.capacity
    rw [h5, Nat.mod_add_mod]
    congr 1
    omega

theorem unread_advance (rb : RingBuffer) (k : Nat) (hwf : rb.WF)
    (hk : k ≤ rb.get_direct_dequeue_size) :
    rb.unread = (rb.storage.drop rb.read_cursor).take k ++ (rb.advance_read_index k).unread := by
  obtain ⟨h1, h2, h3, h4, h5⟩ := hwf
  unfold get_direct_dequeue_size at hk
  have hku : k ≤ rb.used_count := le_trans hk (Nat.min_le_left _ _)
  have hkc : k ≤ rb.capacity - rb.read_cursor := le_trans hk (Nat.min_le_right _ _)
  have hsplit : rb.used_count = k + (rb.used_count - k) := by omega
  unfold unread
  rw [take_eq_map_getD _ k (by simp [h1]; exact hkc)]
  show _ = _ ++ List.map _ (List.range (rb.used_count - k))
  conv_lhs => rw [hsplit, List.range_add, List.map_append, List.map_map]
  congr 1
  · apply List.map_congr_left
    intro i hi
    simp at hi
    have : (rb.read_cursor + i) % rb.capacity = rb.read_cursor + i :=
      Nat.mod_eq_of_lt (by omega)
    simp [this, List.getD_eq_getElem?_getD]
  · apply List.map_congr_left
    intro i _
    show rb.storage.getD ((rb.read_cursor + (k + i)) % rb.capacity) 0 =
      rb.storage.getD (((rb.read_cursor + k) % rb.capacity + i) % rb.capacity) 0
    rw [Nat.mod_add_mod, Nat.add_assoc]

theorem mod_ne_of_lt (r i u c : Nat) (hi : i < u) (hu : u < c) :
    (r + i) % c ≠ (r + u) % c := by
  intro h
  have h1 := Nat.sub_mod_eq_zero_of_mod_eq h.symm
  have h2 : (r + u - (r + i)) % c = r + u - (r + i) := Nat.mod_eq_of_lt (by omega)
  omega

theorem put_spec (rb : RingBuffer) (b : Byte) (hwf : rb.WF) (hfree : rb.used_count < rb.capacity) :
    (rb.put b).WF ∧ (rb.put b).unread = rb.unread ++ [b] ∧ (rb.put b).capacity = rb.capacity ∧
      (rb.put b).used_count = rb.used_count + 1 := by
  obtain ⟨h1, h2, h3, h4, h5⟩ := hwf
  have hw : rb.write_cursor < rb.capacity := by rw [h5]; exact Nat.mod_lt _ h2
  refine ⟨⟨?_, h2, h3, hfree, ?_⟩, ?_, rfl, rfl⟩
  · show (rb.storage.set rb.write_cursor b).length = rb.capacity
    simp [h1]
  · show (rb.write_cursor + 1) % rb.capacity = (rb.read_cursor + (rb.used_count + 1)) % rb.capacity
    rw [h5, Nat.mod_add_mod, Nat.add_assoc]
  · show List.map (fun i => (rb.storage.set rb.write_cursor b).getD
        ((rb.read_cursor + i) % rb.capacity) 0) (List.range (rb.used_count + 1)) =
      List.map (fun i => rb.storage.getD ((rb.read_cursor + i) % rb.capacity) 0)
        (List.range rb.used_count) ++ [b]
    rw [List.range_succ, List.map_append]
    congr 1
    · apply List.map_congr_left
      intro i hi
      simp at hi
      have hne : rb.write_cursor ≠ (rb.read_cursor + i) % rb.capacity := by
        rw [h5]; exact (mod_ne_of_lt _ _ _ _ hi hfree).symm
      simp [List.getD_eq_getElem?_getD, List.getElem?_set_ne hne]
    · simp [List.getD_eq_getElem?_getD, ← h5, List.getElem?_set_self, h1, hw]

theorem foldl_put_spec (bytes : List Byte) (rb : RingBuffer) (hwf : rb.WF)
    (hfree : bytes.length ≤ rb.capacity - rb.used_count) :
    (bytes.foldl put rb).WF ∧ (bytes.foldl put rb).unread = rb.unread ++ bytes ∧
      (bytes.foldl put rb).used_count = rb.used_count + bytes.length := by
  induction bytes generalizing rb with
  | nil => simp [hwf]
  | cons b bs ih =>
    simp only [List.length_cons] at hfree
    obtain ⟨p1, p2, p3, p4⟩ := put_spec rb b hwf (by have := hwf.2.2.2.1; omega)
    have := ih (rb.put b) p1 (by rw [p3, p4]; omega)
    simp only [List.foldl_cons]
    refine ⟨this.1, ?_, ?_⟩
    · rw [this.2.1, p2]; simp
    · rw [this.2.2, p4]; simp; omega

theorem enqueue_spec (rb : RingBuffer) (ptr : List Byte) (count : Nat) (hwf : rb.WF) :
    (rb.enqueue ptr count).2.WF ∧
      ((rb.enqueue ptr count).1 = true ↔ count ≤ rb.capacity - rb.used_count) ∧
      ((rb.enqueue ptr count).1 = true →
        (rb.enqueue ptr count).2.unread = rb.unread ++ ptr.take count) ∧
      ((rb.enqueue ptr count).1 = false → (rb.enqueue ptr count).2 = rb) := by
  unfold enqueue
  by_cases h : count ≤ rb.capacity - rb.used_count
  · have := foldl_put_spec (ptr.take count) rb hwf (by simp; omega)
    simp [h, this.1, this.2.1]
  · simp [h, hwf]

theorem enqueue_take (rb : RingBuffer) (ptr : List Byte) (count : Nat) :
    rb.enqueue ptr count = rb.enqueue (ptr.take count) count := by
  simp [enqueue, List.take_take]

end RingBuffer

/-! ## Facts about the sink -/

@[simp] theorem accepted_nil : accepted [] = [] := rfl

@[simp] theorem accepted_append (a b : List OsCall) :
    accepted (a ++ b) = accepted a ++ accepted b := by
  simp [accepted, List.flatMap_append]

@[simp] theorem accepted_singleton (c : OsCall) : accepted [c] = c.accepted_bytes := by
  simp [accepted]

theorem World.leads_refl (w : World) : w.leads w [] := by
  simp [World.leads]

theorem World.leads_trans {w w1 w2 : World} {e1 e2 : List OsCall} (h1 : w.leads w1 e1)
    (h2 : w1.leads w2 e2) : w.leads w2 (e1 ++ e2) := by
  obtain ⟨a1, a2, a3⟩ := h1
  obtain ⟨b1, b2, b3⟩ := h2
  refine ⟨by rw [b1, a1, List.append_assoc], by rw [b2, a2], ?_⟩
  intro c hc
  rcases List.mem_append.mp hc with h | h
  · exact a3 c h
  · exact b3 c h

theorem World.leads_called (w : World) (c : OsCall) (hc : c.is_release = false) :
    w.leads (w.called c) [c] := by
  simp [World.leads, World.called, hc]

namespace Sink

theorem write_loop_posix_spec (fd : Int) (fuel : Nat) (buffer : List Byte) :
    ∀ (count bytes_done : Nat) (w : World),
      ∃ evs, w.leads (write_loop_posix fd fuel buffer count bytes_done w).2 evs ∧
        bytes_done ≤ (write_loop_posix fd fuel buffer count bytes_done w).1 ∧
        (write_loop_posix fd fuel buffer count bytes_done w).1 ≤ bytes_done + count ∧
        accepted evs = (buffer.drop bytes_done).take
          ((write_loop_posix fd fuel buffer count bytes_done w).1 - bytes_done) := by
  induction fuel with
  | zero =>
    intro count bytes_done w
    exact ⟨[], by simp [write_loop_posix, World.leads_refl]⟩
  | succ fuel ih =>
    intro count bytes_done w
    unfold write_loop_posix
    by_cases hc : count = 0
    · exact ⟨[], by simp [hc, World.leads_refl]⟩
    · simp only [hc, if_false]
      by_cases ha : w.answer ≤ 0
      · refine ⟨[OsCall.sys_write fd (min count INT_MAX) w.answer
          ((buffer.drop bytes_done).take w.answer.toNat)], ?_⟩
        simp only [ha, if_true]
        refine ⟨World.leads_called _ _ rfl, le_refl _, by omega, ?_⟩
        simp [OsCall.accepted_bytes, Int.toNat_eq_zero.mpr ha]
      · have hpos : ¬ (min w.answer (↑(min count INT_MAX) : Int)) ≤ 0 := by
          have : (0 : Int) < ↑(min count INT_MAX) := by
            have : 0 < min count INT_MAX := by
              simp [INT_MAX]; omega
            exact_mod_cast this
          simp only [not_le, lt_min_iff]
          exact ⟨by omega, this⟩
        simp only [ha, if_false, hpos]
        set n := (min w.answer (↑(min count INT_MAX) : Int)).toNat with hn
        have hn1 : n ≤ count := by
          have : (min w.answer (↑(min count INT_MAX) : Int)) ≤ (count : Int) := by
            refine le_trans (min_le_right _ _) ?_
            exact_mod_cast Nat.min_le_left _ _
          omega
        obtain ⟨evs, e1, e2, e3, e4⟩ := ih (count - n) (bytes_done + n)
          (w.called (OsCall.sys_write fd (min count INT_MAX)
            (min w.answer (↑(min count INT_MAX) : Int)) ((buffer.drop bytes_done).take n)))
        refine ⟨[OsCall.sys_write fd (min count INT_MAX)
            (min w.answer (↑(min count INT_MAX) : Int)) ((buffer.drop bytes_done).take n)] ++ evs,
          World.leads_trans (World.leads_called _ _ rfl) e1, by omega, by omega, ?_⟩
        rw [accepted_append, e4]
        simp only [accepted_singleton, OsCall.accepted_bytes]
        set r := (write_loop_posix fd fuel buffer (count - n) (bytes_done + n)
          (w.called (OsCall.sys_write fd (min count INT_MAX)
            (min w.answer (↑(min count INT_MAX) : Int)) ((buffer.drop bytes_done).take n)))).1
        rw [show r - bytes_done = n + (r - (bytes_done + n)) by omega, List.take_add,
          List.drop_drop]

theorem write_loop_windows_spec (handle : Int) (fuel : Nat) (buffer : List Byte) :
    ∀ (count bytes_done : Nat) (w : World),
      ∃ evs, w.leads (write_loop_windows handle fuel buffer count bytes_done w).2 evs ∧
        bytes_done ≤ (write_loop_windows handle fuel buffer count bytes_done w).1 ∧
        (write_loop_windows handle fuel buffer count bytes_done w).1 ≤ bytes_done + count ∧
        accepted evs = (buffer.drop bytes_done).take
          ((write_loop_windows handle fuel buffer count bytes_done w).1 - bytes_done) := by
  induction fuel with
  | zero =>
    intro count bytes_done w
    exact ⟨[], by simp [write_loop_windows, World.leads_refl]⟩
  | succ fuel ih =>
    intro count bytes_done w
    unfold write_loop_windows
    by_cases hc : count = 0
    · exact ⟨[], by simp [hc, World.leads_refl]⟩
    · simp only [hc, if_false]
      by_cases ha : min w.answer.toNat (min count (2 ^ 32 - 1)) = 0
      · refine ⟨[OsCall.WriteFile handle (min count (2 ^ 32 - 1))
          ((buffer.drop bytes_done).take (min w.answer.toNat (min count (2 ^ 32 - 1))))], ?_⟩
        simp only [ha, if_true]
        refine ⟨World.leads_called _ _ rfl, le_refl _, by omega, ?_⟩
        simp [OsCall.accepted_bytes]
      · simp only [ha, if_false]
        set n := min w.answer.toNat (min count (2 ^ 32 - 1)) with hn
        have hn1 : n ≤ count := le_trans (Nat.min_le_right _ _) (Nat.min_le_left _ _)
        obtain ⟨evs, e1, e2, e3, e4⟩ := ih (count - n) (bytes_done + n)
          (w.called (OsCall.WriteFile handle (min count (2 ^ 32 - 1))
            ((buffer.drop bytes_done).take n)))
        refine ⟨[OsCall.WriteFile handle (min count (2 ^ 32 - 1))
            ((buffer.drop bytes_done).take n)] ++ evs,
          World.leads_trans (World.leads_called _ _ rfl) e1, by omega, by omega, ?_⟩
        rw [accepted_append, e4]
        simp only [accepted_singleton, OsCall.accepted_bytes]
        set r := (write_loop_windows handle fuel buffer (count - n) (bytes_done + n)
          (w.called (OsCall.WriteFile handle (min count (2 ^ 32 - 1))
            ((buffer.drop bytes_done).take n)))).1
        rw [show r - bytes_done = n + (r - (bytes_done + n)) by omega, List.take_add,
          List.drop_drop]

/-- What `Sink::write` does: it accepts at most `count` bytes, and the bytes the system
accepted over its calls are the first bytes of the request, as many as it returns. -/
theorem write_spec (self : Sink) (buffer : List Byte) (count : Nat) (w : World) :
    ∃ evs, w.leads (self.write (some buffer) count w).2 evs ∧
      (self.write (some buffer) count w).1 ≤ count ∧
      accepted evs = buffer.take (self.write (some buffer) count w).1 := by
  unfold write
  by_cases hc : count = 0
  · exact ⟨[], by simp [hc, World.leads_refl]⟩
  · simp only [hc, if_false]
    cases self.backend with
    | STDIO =>
      by_cases hfp : self.handle.get_fp = 0
      · exact ⟨[], by simp [hfp, World.leads_refl]⟩
      · refine ⟨[OsCall.fwrite self.handle.get_fp count
          (buffer.take (min w.answer.toNat count))], ?_⟩
        simp only [ne_eq, hfp, not_false_eq_true, if_true]
        exact ⟨World.leads_called _ _ rfl, Nat.min_le_right _ _, by simp [OsCall.accepted_bytes]⟩
    | POSIX =>
      by_cases hfd : 0 ≤ self.handle.get_fd
      · simp only [hfd, if_true]
        obtain ⟨evs, e1, _, e3, e4⟩ := write_loop_posix_spec self.handle.get_fd count buffer count 0 w
        exact ⟨evs, e1, by omega, by simpa using e4⟩
      · exact ⟨[], by simp [hfd, World.leads_refl]⟩
    | WINDOWS =>
      by_cases hw : w.win32 = true
      · by_cases hh : self.handle.get_windows_handle ≠ 0 ∧
            self.handle.get_windows_handle ≠ INVALID_HANDLE_VALUE
        · simp only [hw, if_true]
          rw [if_pos hh]
          obtain ⟨evs, e1, _, e3, e4⟩ :=
            write_loop_windows_spec self.handle.get_windows_handle count buffer count 0 w
          exact ⟨evs, e1, by omega, by simpa using e4⟩
        · refine ⟨[], ?_⟩
          simp only [hw, if_true]
          rw [if_neg hh]
          simp [World.leads_refl]
      · exact ⟨[], by simp [hw, World.leads_refl]⟩

end Sink

/-! ## Facts about `flush` -/

namespace Logger

theorem direct_dequeue_size_pos (rb : RingBuffer) (hwf : rb.WF) (hne : rb.get_used_size ≠ 0) :
    rb.get_direct_dequeue_size ≠ 0 := by
  obtain ⟨_, _, h3, _, _⟩ := hwf
  unfold RingBuffer.get_used_size at hne
  unfold RingBuffer.get_direct_dequeue_size
  omega

/-- One round of the loop of `flush` on a non-empty buffer. -/
theorem flush_loop_succ (fuel : Nat) (self : Logger) (w : World) (hwf : self.buffer.WF)
    (hne : self.buffer.get_used_size ≠ 0) :
    flush_loop (fuel + 1) self w =
      if (self.sink.write self.buffer.get_direct_dequeue_ptr
          self.buffer.get_direct_dequeue_size w).1 = 0 then
        some (false, self, (self.sink.write self.buffer.get_direct_dequeue_ptr
          self.buffer.get_direct_dequeue_size w).2)
      else
        flush_loop fuel
          { self with buffer := (self.buffer.advance_read_index
              (self.sink.write self.buffer.get_direct_dequeue_ptr
                self.buffer.get_direct_dequeue_size w).1) }
          (self.sink.write self.buffer.get_direct_dequeue_ptr
            self.buffer.get_direct_dequeue_size w).2 := by
  rw [flush_loop]
  simp only [hne, if_false, direct_dequeue_size_pos _ hwf hne]

/-- One call of `Sink::write` on the contiguous run of a well-formed buffer: the bytes the
system accepted are the first unread bytes, as many as the call returns, and no more than the
run holds. -/
theorem write_run_spec (self : Logger) (w : World) (hwf : self.buffer.WF) :
    ∃ evs, w.leads (self.sink.write self.buffer.get_direct_dequeue_ptr
          self.buffer.get_direct_dequeue_size w).2 evs ∧
      (self.sink.write self.buffer.get_direct_dequeue_ptr
          self.buffer.get_direct_dequeue_size w).1 ≤ self.buffer.get_direct_dequeue_size ∧
      accepted evs = self.buffer.unread.take (self.sink.write self.buffer.get_direct_dequeue_ptr
          self.buffer.get_direct_dequeue_size w).1 ∧
      self.buffer.unread = accepted evs ++ (self.buffer.advance_read_index
        (self.sink.write self.buffer.get_direct_dequeue_ptr
          self.buffer.get_direct_dequeue_size w).1).unread := by
  have hp : self.buffer.get_direct_dequeue_ptr =
      some (self.buffer.storage.drop self.buffer.read_cursor) := rfl
  rw [hp]
  obtain ⟨evs, e1, e2, e3⟩ := Sink.write_spec self.sink (self.buffer.storage.drop
    self.buffer.read_cursor) self.buffer.get_direct_dequeue_size w
  have hun := RingBuffer.unread_advance self.buffer _ hwf e2
  generalize (self.sink.write (some (self.buffer.storage.drop self.buffer.read_cursor))
    self.buffer.get_direct_dequeue_size w).1 = n at e2 e3 hun ⊢
  refine ⟨evs, e1, e2, ?_, ?_⟩
  · rw [e3]
    conv_rhs => rw [hun]
    have hlen : n ≤ ((self.buffer.storage.drop self.buffer.read_cursor).take n).length := by
      rw [List.length_take, List.length_drop]
      have h1 := hwf.1
      have h4 := hwf.2.2.1
      unfold RingBuffer.get_direct_dequeue_size at e2
      omega
    rw [List.take_append_of_le_length hlen, List.take_take]
    simp
  · rw [e3]; exact hun

theorem flush_loop_spec (fuel : Nat) :
    ∀ (self : Logger) (w : World), self.buffer.WF → self.buffer.used_count ≤ fuel →
      ∃ ok self1 w1 evs, flush_loop fuel self w = some (ok, self1, w1) ∧
        self1.sink = self.sink ∧ self1.threshold = self.threshold ∧ self1.buffer.WF ∧
        w.leads w1 evs ∧ accepted evs ++ self1.buffer.unread = self.buffer.unread ∧
        (ok = true → self1.buffer.used_count = 0) := by
  induction fuel with
  | zero =>
    intro self w hwf hfuel
    refine ⟨true, self, w, [], ?_, rfl, rfl, hwf, World.leads_refl w, by simp, fun _ => by omega⟩
    rw [flush_loop]
    simp [RingBuffer.get_used_size]
    omega
  | succ fuel ih =>
    intro self w hwf hfuel
    by_cases hne : self.buffer.get_used_size = 0
    · refine ⟨true, self, w, [], ?_, rfl, rfl, hwf, World.leads_refl w, by simp, fun _ => hne⟩
      rw [flush_loop]
      simp [hne]
    · rw [flush_loop_succ fuel self w hwf hne]
      obtain ⟨evs, e1, e2, e3, e4⟩ := write_run_spec self w hwf
      by_cases hz : (self.sink.write self.buffer.get_direct_dequeue_ptr
          self.buffer.get_direct_dequeue_size w).1 = 0
      · refine ⟨false, self, _, evs, by simp [hz], rfl, rfl, hwf, e1, ?_, by simp⟩
        rw [e3, hz]; simp
      · have hle : (self.sink.write self.buffer.get_direct_dequeue_ptr
            self.buffer.get_direct_dequeue_size w).1 ≤ self.buffer.used_count :=
          le_trans e2 (Nat.min_le_left _ _)
        obtain ⟨ok, self1, w1, evs1, f1, f2, f3, f4, f5, f6, f7⟩ :=
          ih { self with buffer := (self.buffer.advance_read_index
              (self.sink.write self.buffer.get_direct_dequeue_ptr
                self.buffer.get_direct_dequeue_size w).1) }
            (self.sink.write self.buffer.get_direct_dequeue_ptr
              self.buffer.get_direct_dequeue_size w).2
            (RingBuffer.WF_advance _ _ hwf hle)
            (by
              show self.buffer.used_count - _ ≤ fuel
              omega)
        refine ⟨ok, self1, w1, evs ++ evs1, by simp [hz, f1], f2, f3, f4,
          World.leads_trans e1 f5, ?_, f7⟩
        rw [accepted_append, List.append_assoc, f6, ← e4]

theorem flush_loop_fuel (fuel1 : Nat) :
    ∀ (fuel2 : Nat) (self : Logger) (w : World), self.buffer.WF →
      self.buffer.used_count ≤ fuel1 → self.buffer.used_count ≤ fuel2 →
      flush_loop fuel1 self w = flush_loop fuel2 self w := by
  induction fuel1 with
  | zero =>
    intro fuel2 self w _ h1 _
    have h0 : self.buffer.get_used_size = 0 := by
      unfold RingBuffer.get_used_size
      omega
    rw [flush_loop.eq_def, flush_loop.eq_def fuel2]
    simp [h0]
  | succ fuel1 ih =>
    intro fuel2 self w hwf h1 h2
    by_cases hne : self.buffer.get_used_size = 0
    · rw [flush_loop.eq_def, flush_loop.eq_def fuel2]
      simp [hne]
    · have hpos : self.buffer.used_count ≠ 0 := hne
      obtain ⟨k, rfl⟩ : ∃ k, fuel2 = k + 1 := ⟨fuel2 - 1, by omega⟩
      rw [flush_loop_succ fuel1 self w hwf hne, flush_loop_succ k self w hwf hne]
      obtain ⟨_, _, e2, _, _⟩ := write_run_spec self w hwf
      by_cases hz : (self.sink.write self.buffer.get_direct_dequeue_ptr
          self.buffer.get_direct_dequeue_size w).1 = 0
      · simp [hz]
      · simp only [hz, if_false]
        have hle : (self.sink.write self.buffer.get_direct_dequeue_ptr
            self.buffer.get_direct_dequeue_size w).1 ≤ self.buffer.used_count :=
          le_trans e2 (Nat.min_le_left _ _)
        refine ih k _ _ (RingBuffer.WF_advance _ _ hwf hle) ?_ ?_
        · show self.buffer.used_count - _ ≤ fuel1
          omega
        · show self.buffer.used_count - _ ≤ k
          omega

/-- The loop of `flush` ends within `used_count` rounds. -/
theorem flush_loop_total (self : Logger) (w : World) (hwf : self.buffer.WF) :
    ∃ r, flush_loop self.buffer.get_used_size self w = some r := by
  obtain ⟨ok, self1, w1, _, h, _⟩ := flush_loop_spec self.buffer.used_count self w hwf (le_refl _)
  exact ⟨(ok, self1, w1), h⟩

theorem flush_stream_spec (self : Logger) (w : World) :
    ∃ evs, w.leads (self.flush_stream w).2.2 evs ∧ accepted evs = [] ∧
      (self.flush_stream w).2.1 = self := by
  unfold flush_stream
  by_cases h : self.sink.backend = SinkBackend.STDIO ∧ self.sink.handle.get_fp ≠ 0
  · rw [if_pos h]
    refine ⟨[OsCall.fflush self.sink.handle.get_fp w.answer], ?_⟩
    by_cases hr : w.answer ≠ 0
    · rw [if_pos hr]
      exact ⟨World.leads_called _ _ rfl, rfl, rfl⟩
    · rw [if_neg hr]
      exact ⟨World.leads_called _ _ rfl, rfl, rfl⟩
  · rw [if_neg h]
    exact ⟨[], World.leads_refl w, rfl, rfl⟩

/-- What `flush` does on a well-formed buffer: the calls it makes release no handle, the
bytes they made the system accept followed by the bytes left unread are the bytes that were
unread, and a `true` result leaves the buffer empty. -/
theorem flush_spec (self : Logger) (w : World) (hwf : self.buffer.WF) :
    ∃ evs, w.leads (self.flush w).2.2 evs ∧ (self.flush w).2.1.sink = self.sink ∧
      (self.flush w).2.1.threshold = self.threshold ∧ (self.flush w).2.1.buffer.WF ∧
      accepted evs ++ (self.flush w).2.1.buffer.unread = self.buffer.unread ∧
      ((self.flush w).1 = true → (self.flush w).2.1.buffer.used_count = 0) := by
  obtain ⟨ok, self1, w1, evs, f1, f2, f3, f4, f5, f6, f7⟩ :=
    flush_loop_spec self.buffer.used_count self w hwf (le_refl _)
  unfold flush
  rw [show self.buffer.get_used_size = self.buffer.used_count from rfl, f1]
  cases ok with
  | false => exact ⟨evs, f5, f2, f3, f4, f6, by simp⟩
  | true =>
    obtain ⟨evs2, g1, g2, g3⟩ := flush_stream_spec self1 w1
    refine ⟨evs ++ evs2, World.leads_trans f5 g1, ?_, ?_, ?_, ?_, ?_⟩
    · show (self1.flush_stream w1).2.1.sink = _
      rw [g3, f2]
    · show (self1.flush_stream w1).2.1.threshold = _
      rw [g3, f3]
    · show (self1.flush_stream w1).2.1.buffer.WF
      rw [g3]; exact f4
    · show _ ++ (self1.flush_stream w1).2.1.buffer.unread = _
      rw [g3, accepted_append, g2, List.append_nil, f6]
    · intro _
      show (self1.flush_stream w1).2.1.buffer.used_count = 0
      rw [g3]; exact f7 rfl

theorem unread_nil_of_used_zero (rb : RingBuffer) (h : rb.used_count = 0) : rb.unread = [] := by
  simp [RingBuffer.unread, h]

end Logger

/-! ## Facts about rendering -/

theorem cstr_newline : cstr "\n" = [10] := rfl

theorem printf_ret_of_le (n : Nat) (h : n ≤ INT_MAX) : printf_ret n = (n : Int) := by
  simp [printf_ret, h]

theorem printf_ret_of_gt (n : Nat) (h : INT_MAX < n) : printf_ret n = -1 := by
  simp [printf_ret, Nat.not_le.mpr h]

theorem vsnprintf_spec (buffer : List Byte) (off size : Nat) (text : List Byte) (hs : size ≠ 0)
    (h : off + size ≤ buffer.length) :
    vsnprintf buffer off size text =
      some (buffer.take off ++ (text.take (size - 1) ++ [0]) ++
        buffer.drop (off + (text.take (size - 1) ++ [0]).length), printf_ret text.length) := by
  unfold vsnprintf store_bytes
  have : off + (min (size - 1) text.length + 1) ≤ buffer.length := by
    omega
  simp [hs, this]

theorem sprintf_spec (buffer : List Byte) (text : List Byte)
    (h : text.length + 1 ≤ buffer.length) :
    sprintf buffer text = some (text ++ [0] ++ buffer.drop (text.length + 1),
      printf_ret text.length) := by
  unfold sprintf store_bytes
  simp [h]

theorem fmt_precision_eq (m : List Byte) (n : Nat) (hn : m.length ≤ n)
    (hnul : ∀ c ∈ m, c ≠ 0) : fmt_precision n m = m := by
  unfold fmt_precision
  rw [List.take_of_length_le hn, List.takeWhile_eq_self_iff]
  intro c hc
  simpa using hnul c hc

theorem fmt_precision_take (d : List Byte) (n : Nat) (hnul : ∀ c ∈ d.take n, c ≠ 0)
    (hm : (d.take n).length ≤ INT_MAX) : fmt_precision (min n INT_MAX) d = d.take n := by
  have htake : d.take (min n INT_MAX) = d.take n := by
    by_cases hn : n ≤ INT_MAX
    · rw [min_eq_left hn]
    · rw [List.length_take] at hm
      have hd : d.length ≤ INT_MAX := by omega
      rw [List.take_of_length_le (by omega), List.take_of_length_le (by omega)]
  unfold fmt_precision
  rw [htake, List.takeWhile_eq_self_iff]
  intro c hc
  simpa using hnul c hc

theorem fmt_level_length (L : LogLevel) :
    7 ≤ (fmt_level (loglevel_to_cstr L)).length ∧
      (fmt_level (loglevel_to_cstr L)).length ≤ 10 := by
  cases L <;> decide

theorem fmt_level_no_newline (L : LogLevel) : (10 : Byte) ∉ fmt_level (loglevel_to_cstr L) := by
  cases L <;> decide

/-- The end of both `log` overloads on a line buffer of `N` bytes that holds the first `N - 1`
bytes of `text` and a NUL: `text` and a newline are enqueued when `text` is shorter than
`N - 1`, and otherwise its first `N - 2` bytes and a newline. -/
theorem terminate_and_enqueue_spec (self : Logger) (text rest : List Byte) (N : Nat)
    (hN : 2 ≤ N) (hlen : (text.take (N - 1) ++ 0 :: rest).length = N) :
    Logger.terminate_and_enqueue self (text.take (N - 1) ++ 0 :: rest)
        (min (N - 1) text.length) =
      some (self.enqueue_line
        (if text.length < N - 1 then text ++ cstr "\n" else text.take (N - 2) ++ cstr "\n")) := by
  unfold Logger.terminate_and_enqueue Logger.enqueue_line store_bytes
  rw [hlen, cstr_newline]
  by_cases hshort : text.length < N - 1
  · have hw : min (N - 1) text.length = text.length := by omega
    have htake : text.take (N - 1) = text := List.take_of_length_le (by omega)
    rw [htake] at hlen ⊢
    simp only [hw, if_neg (show ¬ text.length = N - 1 by omega), hshort, if_true,
      List.length_singleton]
    rw [if_pos (by omega)]
    simp only [Option.map_some', Option.some.injEq]
    rw [RingBuffer.enqueue_take]
    have : List.take (text.length + 1)
        (List.take text.length (text ++ 0 :: rest) ++ [10] ++
          List.drop (text.length + 1) (text ++ 0 :: rest)) = text ++ [10] := by
      have h1 : List.take text.length (text ++ 0 :: rest) = text := List.take_left' rfl
      rw [h1, List.take_left' (by simp)]
    rw [this]
    simp
  · have hw : min (N - 1) text.length = N - 1 := by omega
    have htl : (text.take (N - 1)).length = N - 1 := by
      rw [List.length_take]; omega
    simp only [hw, if_true, hshort, if_false, List.length_singleton]
    rw [if_pos (by omega)]
    simp only [Option.map_some', Option.some.injEq]
    rw [RingBuffer.enqueue_take]
    have : List.take (N - 1)
        (List.take (N - 2) (List.take (N - 1) text ++ 0 :: rest) ++ [10] ++
          List.drop (N - 2 + 1) (List.take (N - 1) text ++ 0 :: rest)) =
        text.take (N - 2) ++ [10] := by
      have h1 : List.take (N - 2) (List.take (N - 1) text ++ 0 :: rest) = text.take (N - 2) := by
        rw [List.take_append_of_le_length (by omega), List.take_take]
        congr 1
        omega
      rw [h1, List.append_assoc, List.take_append_eq_append_take]
      have h2 : (text.take (N - 2)).length = N - 2 := by
        rw [List.length_take]; omega
      rw [h2, List.take_of_length_le (by omega)]
      rw [show N - 1 - (N - 2) = 1 by omega]
      simp
    rw [this]
    have hl : (text.take (N - 2) ++ [10]).length = N - 1 := by
      rw [List.length_append, List.length_take, List.length_singleton]; omega
    rw [hl]

theorem Logger.log_spec (self : Logger) (L : LogLevel) (m : List Byte)
    (hen : self.is_enabled L = true) (hnul : ∀ c ∈ m, c ≠ 0)
    (hfit : (fmt_level (loglevel_to_cstr L) ++ m).length ≤ INT_MAX) :
    self.log L (StringView.of m) =
      some (self.enqueue_line
        (if (fmt_level (loglevel_to_cstr L) ++ m).length < MAX_LINE_LENGTH - 1 then
          fmt_level (loglevel_to_cstr L) ++ m ++ cstr "\n"
        else (fmt_level (loglevel_to_cstr L) ++ m).take (MAX_LINE_LENGTH - 2) ++ cstr "\n")) := by
  have hm : m.length ≤ INT_MAX := by
    rw [List.length_append] at hfit; omega
  have hM : MAX_LINE_LENGTH = 256 := rfl
  unfold Logger.log
  generalize hb : List.replicate MAX_LINE_LENGTH (0 : Byte) = buf
  have hbuf : buf.length = MAX_LINE_LENGTH := by
    rw [← hb]; exact List.length_replicate _ _
  simp only [hen, not_true_eq_false, if_false, StringView.of, reduceCtorEq, false_and,
    Option.getD_some, min_eq_left hm, fmt_precision_eq m m.length (le_refl _) hnul]
  unfold snprintf
  rw [vsnprintf_spec buf 0 buf.length _ (by omega) (by omega), printf_ret_of_le _ hfit]
  simp only [List.take_zero, List.nil_append]
  have hneg : ¬ ((↑(fmt_level (loglevel_to_cstr L) ++ m).length : Int) < 0) := by omega
  simp only [hneg, if_false, Int.toNat_ofNat, List.append_assoc, List.singleton_append]
  have hlen : (List.take (buf.length - 1) (fmt_level (loglevel_to_cstr L) ++ m) ++
      0 :: List.drop (0 + (List.take (buf.length - 1) (fmt_level (loglevel_to_cstr L) ++ m)
        ++ [0]).length) buf).length = buf.length := by
    simp only [List.length_append, List.length_cons, List.length_drop, List.length_take,
      List.length_nil]
    omega
  rw [hlen]
  have := terminate_and_enqueue_spec self (fmt_level (loglevel_to_cstr L) ++ m) _ buf.length
    (by omega) hlen
  rw [this, hbuf]
  simp only [List.append_assoc]

/-- The `string_view` overload on any view of readable memory: the message is the first
`size` bytes of the memory at `data`, whatever follows them there. -/
theorem Logger.log_view_spec (self : Logger) (L : LogLevel) (d : List Byte) (n : Nat)
    (hen : self.is_enabled L = true) (hnul : ∀ c ∈ d.take n, c ≠ 0)
    (hfit : (fmt_level (loglevel_to_cstr L) ++ d.take n).length ≤ INT_MAX) :
    self.log L { data := some d, size := n } =
      some (self.enqueue_line
        (if (fmt_level (loglevel_to_cstr L) ++ d.take n).length < MAX_LINE_LENGTH - 1 then
          fmt_level (loglevel_to_cstr L) ++ d.take n ++ cstr "\n"
        else
          (fmt_level (loglevel_to_cstr L) ++ d.take n).take (MAX_LINE_LENGTH - 2) ++
            cstr "\n")) := by
  have hm : (d.take n).length ≤ INT_MAX := by
    rw [List.length_append] at hfit; omega
  have hM : MAX_LINE_LENGTH = 256 := rfl
  unfold Logger.log
  generalize hb : List.replicate MAX_LINE_LENGTH (0 : Byte) = buf
  have hbuf : buf.length = MAX_LINE_LENGTH := by
    rw [← hb]; exact List.length_replicate _ _
  simp only [hen, not_true_eq_false, if_false, reduceCtorEq, false_and,
    Option.getD_some, fmt_precision_take d n hnul hm]
  generalize d.take n = m at hfit hm hnul ⊢
  unfold snprintf
  rw [vsnprintf_spec buf 0 buf.length _ (by omega) (by omega), printf_ret_of_le _ hfit]
  simp only [List.take_zero, List.nil_append]
  have hneg : ¬ ((↑(fmt_level (loglevel_to_cstr L) ++ m).length : Int) < 0) := by omega
  simp only [hneg, if_false, Int.toNat_ofNat, List.append_assoc, List.singleton_append]
  have hlen : (List.take (buf.length - 1) (fmt_level (loglevel_to_cstr L) ++ m) ++
      0 :: List.drop (0 + (List.take (buf.length - 1) (fmt_level (loglevel_to_cstr L) ++ m)
        ++ [0]).length) buf).length = buf.length := by
    simp only [List.length_append, List.length_cons, List.length_drop, List.length_take,
      List.length_nil]
    omega
  rw [hlen]
  have := terminate_and_enqueue_spec self (fmt_level (loglevel_to_cstr L) ++ m) _ buf.length
    (by omega) hlen
  rw [this, hbuf]
  simp only [List.append_assoc]

/-- The `string_view` overload on a null view of size 0: it is taken as the empty message. -/
theorem Logger.log_null_view (self : Logger) (L : LogLevel) :
    self.log L { data := none, size := 0 } = self.log L { data := some [], size := 0 } := by
  unfold Logger.log
  generalize List.replicate MAX_LINE_LENGTH (0 : Byte) = buf
  simp only [ne_eq, not_true_eq_false, and_false, if_false, if_true, reduceCtorEq, false_and]

theorem Logger.log_fmt_spec (self : Logger) (L : LogLevel) (m : List Byte)
    (hen : self.is_enabled L = true) (hfit : m.length ≤ INT_MAX) :
    self.log_fmt L (some m) =
      some (self.enqueue_line
        (if (fmt_level (loglevel_to_cstr L) ++ m).length < MAX_LINE_LENGTH - 1 then
          fmt_level (loglevel_to_cstr L) ++ m ++ cstr "\n"
        else (fmt_level (loglevel_to_cstr L) ++ m).take (MAX_LINE_LENGTH - 2) ++ cstr "\n")) := by
  have hM : MAX_LINE_LENGTH = 256 := rfl
  obtain ⟨hp7, hp10⟩ := fmt_level_length L
  have hI : INT_MAX = 2147483647 := rfl
  unfold Logger.log_fmt
  generalize hb : List.replicate MAX_LINE_LENGTH (0 : Byte) = buf
  have hbuf : buf.length = MAX_LINE_LENGTH := by
    rw [← hb]; exact List.length_replicate _ _
  simp only [hen, not_true_eq_false, if_false]
  generalize hpre : fmt_level (loglevel_to_cstr L) = pre at hp7 hp10 ⊢
  rw [sprintf_spec buf pre (by omega), printf_ret_of_le _ (by omega)]
  have hneg : ¬ ((↑pre.length : Int) < 0) := by omega
  simp only [hneg, if_false, Int.toNat_ofNat]
  have hl1 : (pre ++ [0] ++ List.drop (pre.length + 1) buf).length = buf.length := by
    simp only [List.length_append, List.length_drop, List.length_singleton]
    omega
  rw [vsnprintf_spec _ pre.length _ m (by rw [hl1]; omega) (by rw [hl1]; omega),
    printf_ret_of_le _ hfit]
  have hneg2 : ¬ ((↑m.length : Int) < 0) := by omega
  simp only [hneg2, if_false, Int.toNat_ofNat, hl1]
  have htake : List.take pre.length (pre ++ [0] ++ List.drop (pre.length + 1) buf) = pre := by
    rw [List.append_assoc]; exact List.take_left' rfl
  have hsplit : List.take (buf.length - 1) (pre ++ m) =
      pre ++ List.take (buf.length - pre.length - 1) m := by
    rw [List.take_append_eq_append_take, List.take_of_length_le (by omega)]
    congr 2
    omega
  rw [htake]
  have hform : pre ++ (List.take (buf.length - pre.length - 1) m ++ [0]) ++
      List.drop (pre.length + (List.take (buf.length - pre.length - 1) m ++ [0]).length)
        (pre ++ [0] ++ List.drop (pre.length + 1) buf) =
      List.take (buf.length - 1) (pre ++ m) ++ (0 : Byte) ::
        List.drop (pre.length + (List.take (buf.length - pre.length - 1) m ++ [0]).length)
        (pre ++ [0] ++ List.drop (pre.length + 1) buf) := by
    rw [hsplit]; simp
  rw [hform]
  have hlen : (List.take (buf.length - 1) (pre ++ m) ++ (0 : Byte) ::
        List.drop (pre.length + (List.take (buf.length - pre.length - 1) m ++ [0]).length)
        (pre ++ [0] ++ List.drop (pre.length + 1) buf)).length = buf.length := by
    simp only [List.length_append, List.length_cons, List.length_drop, List.length_take,
      List.length_nil, List.length_singleton]
    omega
  rw [hlen, show pre.length + m.length = (pre ++ m).length from (List.length_append _ _).symm]
  have := terminate_and_enqueue_spec self (pre ++ m) _ buf.length (by omega) hlen
  rw [this, hbuf]

/-! ## Facts about reconfiguration -/

theorem OsCall.accepted_bytes_of_not_output (c : OsCall) (h : c.is_output = false) :
    c.accepted_bytes = [] := by
  cases c <;> simp_all [OsCall.is_output, OsCall.accepted_bytes]

theorem accepted_of_not_output (evs : List OsCall) (h : ∀ c ∈ evs, c.is_output = false) :
    accepted evs = [] := by
  induction evs with
  | nil => rfl
  | cons c cs ih =>
    rw [show c :: cs = [c] ++ cs from rfl, accepted_append, accepted_singleton,
      OsCall.accepted_bytes_of_not_output c (h c (List.mem_cons_self _ _)),
      ih (fun d hd => h d (List.mem_cons_of_mem _ hd))]
    rfl

theorem World.quiet_refl (w : World) : w.quiet w :=
  ⟨[], by simp⟩

theorem World.quiet_called (w : World) (c : OsCall) (h1 : c.is_output = false)
    (h2 : c.is_release = false) : w.quiet (w.called c) :=
  ⟨[c], rfl, by simp [h1, h2]⟩

theorem World.accepted_of_quiet {w w1 : World} (h : w.quiet w1) :
    accepted w1.trace = accepted w.trace := by
  obtain ⟨evs, h1, h2⟩ := h
  rw [h1, accepted_append, accepted_of_not_output evs (fun c hc => (h2 c hc).1),
    List.append_nil]

namespace Sink

theorem close_of_not_file (s : Sink) (w : World) (h : s.target ≠ SinkTarget.FILE) :
    s.close w = (s, w) := by
  unfold close
  rw [if_pos h]

/-- What `Sink::close` does to the world: at most one call, a release. -/
theorem close_world (s : Sink) (w : World) :
    (s.close w).2 = w ∨ ∃ c, c.is_release = true ∧ c.is_output = false ∧
      (s.close w).2 = w.noted c := by
  unfold close
  by_cases ht : s.target ≠ SinkTarget.FILE
  · rw [if_pos ht]; exact Or.inl rfl
  · rw [if_neg ht]
    cases s.backend with
    | STDIO =>
      by_cases h : s.handle.get_fp ≠ 0
      · exact Or.inr ⟨OsCall.fclose s.handle.get_fp, rfl, rfl, by simp [h]⟩
      · exact Or.inl (by simp [h])
    | POSIX =>
      by_cases h : 0 ≤ s.handle.get_fd
      · exact Or.inr ⟨OsCall.sys_close s.handle.get_fd, rfl, rfl, by simp [h]⟩
      · exact Or.inl (by simp [h])
    | WINDOWS =>
      by_cases hw : w.win32 = true
      · by_cases h : s.handle.get_windows_handle ≠ 0 ∧
            s.handle.get_windows_handle ≠ INVALID_HANDLE_VALUE
        · refine Or.inr ⟨OsCall.CloseHandle s.handle.get_windows_handle, rfl, rfl, ?_⟩
          simp only [hw, if_true]
          rw [if_pos h]
        · refine Or.inl ?_
          simp only [hw, if_true]
          rw [if_neg h]
      · exact Or.inl (by simp [hw])

theorem close_trace (s : Sink) (w : World) :
    ∃ evs, (s.close w).2.trace = w.trace ++ evs ∧ ∀ c ∈ evs, c.is_output = false := by
  rcases close_world s w with h | ⟨c, _, hc, h⟩
  · exact ⟨[], by rw [h]; simp, by simp⟩
  · exact ⟨[c], by rw [h]; rfl, by simp [hc]⟩

/-- What `Sink::open` does: it keeps backend, target and path, and makes at most one call,
which is neither a write nor a release. -/
theorem open_spec (s : Sink) (w : World) :
    (s.open_ w).2.1.backend = s.backend ∧ (s.open_ w).2.1.target = s.target ∧
      (s.open_ w).2.1.filepath = s.filepath ∧ w.quiet (s.open_ w).2.2 := by
  unfold open_
  cases ht : s.target <;> cases hb : s.backend <;>
    by_cases hw : w.win32 = true <;> by_cases hp : s.filepath = [] <;>
    simp [ht, hb, hw, hp, World.quiet_refl, World.quiet_called, OsCall.is_output,
      OsCall.is_release]

/-- A sink that failed to open holds no handle to release: its destruction makes no call. -/
theorem destroy_of_open_failed (s : Sink) (w : World) (hok : s.path_ok)
    (hfail : (s.open_ w).1 = false) :
    (s.open_ w).2.1.destroy (s.open_ w).2.2 = (s.open_ w).2.2 := by
  unfold destroy
  unfold open_ at hfail ⊢
  unfold path_ok at hok
  cases ht : s.target <;> cases hb : s.backend <;>
    by_cases hw : w.win32 = true <;> by_cases hp : s.filepath = [] <;>
    simp [ht, hb, hw, hp, close, Handle.get_fp, Handle.get_fd, Handle.get_windows_handle,
      INVALID_HANDLE_VALUE] at hfail hok ⊢ <;>
    first
      | omega
      | simp [hfail]

end Sink

namespace Logger

theorem install_failed (self : Logger) (new_sink : Sink) (w : World)
    (hok : self.sink.path_ok → new_sink.path_ok) (hfail : (new_sink.open_ w).1 = false) :
    self.untouched w (self.install new_sink w) := by
  unfold install
  simp only [hfail, Bool.false_eq_true, not_false_eq_true, if_true]
  refine ⟨rfl, rfl, ?_⟩
  show ∃ evs, ((new_sink.open_ w).2.1.destroy (new_sink.open_ w).2.2).trace = w.trace ++ evs ∧ _
  obtain ⟨evs1, o1, o2⟩ := (Sink.open_spec new_sink w).2.2.2
  by_cases hp : self.sink.path_ok
  · rw [Sink.destroy_of_open_failed new_sink w (hok hp) hfail]
    exact ⟨evs1, o1, fun c hc => (o2 c hc).1, fun _ c hc => (o2 c hc).2⟩
  · obtain ⟨evs2, c1, c2⟩ := Sink.close_trace (new_sink.open_ w).2.1 (new_sink.open_ w).2.2
    refine ⟨evs1 ++ evs2, ?_, ?_, fun h => absurd h hp⟩
    · show ((new_sink.open_ w).2.1.close (new_sink.open_ w).2.2).2.trace = _
      rw [c1, o1, List.append_assoc]
    · intro c hc
      rcases List.mem_append.mp hc with h | h
      · exact (o2 c h).1
      · exact c2 c h

theorem install_result (self : Logger) (new_sink : Sink) (w : World) :
    (self.install new_sink w).1 = (new_sink.open_ w).1 := by
  unfold install
  by_cases h : (new_sink.open_ w).1 = true
  · simp [h]
  · simp [h]

theorem install_succeeded (self : Logger) (new_sink : Sink) (w : World) (hwf : self.buffer.WF)
    (hok : (self.install new_sink w).1 = true) : self.switched w (self.install new_sink w) := by
  rw [install_result] at hok
  obtain ⟨evs, e1, e2, e3, e4, e5, e6⟩ := flush_spec self (new_sink.open_ w).2.2 hwf
  have hq := (Sink.open_spec new_sink w).2.2.2
  obtain ⟨evc, c1, c2⟩ := Sink.close_trace (self.flush (new_sink.open_ w).2.2).2.1.sink
    (self.flush (new_sink.open_ w).2.2).2.2
  have hres : self.install new_sink w =
      (true, { (self.flush (new_sink.open_ w).2.2).2.1 with sink :=
          { backend := (new_sink.open_ w).2.1.backend, target := (new_sink.open_ w).2.1.target,
            filepath := (new_sink.open_ w).2.1.filepath,
            handle := (new_sink.open_ w).2.1.handle } },
        ((self.flush (new_sink.open_ w).2.2).2.1.sink.close
          (self.flush (new_sink.open_ w).2.2).2.2).2) := by
    unfold install
    simp only [hok, not_true_eq_false, if_false, Sink.move_assign, Sink.destroy]
    rw [Sink.close_of_not_file _ _ (by decide)]
  rw [hres]
  refine ⟨(new_sink.open_ w).2.2, evc, hq, rfl, e3, c1, c2, ?_⟩
  intro htrue
  refine ⟨e6 htrue, ?_⟩
  show accepted ((self.flush (new_sink.open_ w).2.2).2.1.sink.close
    (self.flush (new_sink.open_ w).2.2).2.2).2.trace = _
  have h0 := e6 htrue
  rw [unread_nil_of_used_zero _ h0, List.append_nil] at e5
  rw [c1, accepted_append, accepted_of_not_output evc c2, List.append_nil, e1.1,
    accepted_append, e5, World.accepted_of_quiet hq]

theorem install_path_ok (self : Logger) (new_sink : Sink) (w : World) (h1 : self.sink.path_ok)
    (h2 : new_sink.path_ok) : (self.install new_sink w).2.1.sink.path_ok := by
  obtain ⟨_, o2, o3, _⟩ := Sink.open_spec new_sink w
  unfold install
  by_cases h : (new_sink.open_ w).1 = true
  · simp only [h, not_true_eq_false, if_false, Sink.move_assign]
    intro ht
    have ht' : new_sink.target = SinkTarget.FILE := by rw [← o2]; exact ht
    show (new_sink.open_ w).2.1.filepath ≠ []
    rw [o3]
    exact h2 ht'
  · simp only [h, not_false_eq_true, if_true]
    exact h1

/-- The constructor yields a sink with `path_ok`, and every setter keeps it. -/
theorem path_ok_kept (self : Logger) (w : World) (h : self.sink.path_ok) :
    (Logger.create 0).sink.path_ok ∧
    (∀ backend, (self.set_backend backend w).2.1.sink.path_ok) ∧
    (self.set_target_stdout w).2.1.sink.path_ok ∧
    (self.set_target_stderr w).2.1.sink.path_ok ∧
    (∀ filepath, (self.set_target_file filepath w).2.1.sink.path_ok) := by
  refine ⟨(by intro h; cases h), ?_, ?_, ?_, ?_⟩
  · intro backend
    exact install_path_ok self _ w h h
  · exact install_path_ok self _ w h (by intro h; cases h)
  · exact install_path_ok self _ w h (by intro h; cases h)
  · intro filepath
    unfold set_target_file
    by_cases hp : filepath = []
    · simp only [hp, if_true]
      exact h
    · simp only [hp, if_false]
      exact install_path_ok self _ w h (fun _ => hp)

end Logger

/-! ## Properties of `log` -/

/-- C1: for every threshold, every level `L` below it and every message or format string,
both `log` overloads return `true` and leave the Logger, and so its ring buffer, as it was
(nothing is enqueued). -/
theorem Logger.log_below_threshold (self : Logger) (L : LogLevel) (str : StringView)
    (fmtstr : Option (List Byte)) (hlt : L.toNat < self.threshold.toNat) :
    self.log L str = some (true, self) ∧ self.log_fmt L fmtstr = some (true, self) := by
  have hen : self.is_enabled L = false := by
    unfold Logger.is_enabled
    simp only [decide_eq_false_iff_not]
    omega
  have hnot : ¬ self.is_enabled L = true := by simp [hen]
  constructor
  · unfold Logger.log
    exact if_pos hnot
  · unfold Logger.log_fmt
    exact if_pos hnot

/-- Witness of C1: with the threshold `Warning`, `log(Info, "x")` returns `true` and
`used_count` stays 0. -/
theorem Logger.log_below_threshold_witness :
    LogLevel.Info.toNat < warning_logger.threshold.toNat ∧
    warning_logger.buffer.get_used_size = 0 ∧
    warning_logger.log LogLevel.Info (StringView.of (cstr "x")) = some (true, warning_logger) ∧
    warning_logger.log_fmt LogLevel.Info (some (cstr "x")) = some (true, warning_logger) :=
  ⟨by decide, by decide,
    Logger.log_below_threshold warning_logger LogLevel.Info (StringView.of (cstr "x"))
      (some (cstr "x")) (by decide)⟩

/-- C2: for every enabled level `L` and every view (`data`, `size`) of readable memory whose
message `m`, the first `size` bytes at `data`, holds no NUL byte and makes
`"[NAME] " + m + "\n"` shorter than `MAX_LINE_LENGTH`, whatever bytes follow the message in
memory, `log(L, m)` makes one `enqueue` of exactly the bytes `"[NAME] " + m + "\n"` and
returns its result; a null view of size 0 is the empty message; when the `enqueue` succeeds on
a buffer satisfying the RingBuffer contract, the unread bytes are the former ones followed by
the line. `NAME` is `DEBUG`, `INFO`, `WARNING`, `ERROR`, `FATAL`. -/
theorem Logger.log_short_line (self : Logger) (L : LogLevel) (d : List Byte) (n : Nat)
    (hen : self.threshold.toNat ≤ L.toNat) (hnul : ∀ c ∈ d.take n, c ≠ 0)
    (hlen : (fmt_level (loglevel_to_cstr L) ++ d.take n ++ cstr "\n").length <
      MAX_LINE_LENGTH) :
    self.log L { data := some d, size := n } =
      some (self.enqueue_line (fmt_level (loglevel_to_cstr L) ++ d.take n ++ cstr "\n")) ∧
    self.log L { data := none, size := 0 } =
      some (self.enqueue_line (fmt_level (loglevel_to_cstr L) ++ cstr "\n")) ∧
    (self.buffer.WF →
      (self.enqueue_line (fmt_level (loglevel_to_cstr L) ++ d.take n ++ cstr "\n")).1 = true →
      (self.enqueue_line
          (fmt_level (loglevel_to_cstr L) ++ d.take n ++ cstr "\n")).2.buffer.unread =
        self.buffer.unread ++ (fmt_level (loglevel_to_cstr L) ++ d.take n ++ cstr "\n")) ∧
    [LogLevel.Debug, LogLevel.Info, LogLevel.Warning, LogLevel.Error, LogLevel.Fatal].map
        (fun l => fmt_level (loglevel_to_cstr l)) =
      [cstr "[DEBUG] ", cstr "[INFO] ", cstr "[WARNING] ", cstr "[ERROR] ", cstr "[FATAL] "] := by
  have hM : MAX_LINE_LENGTH = 256 := rfl
  have hI : INT_MAX = 2147483647 := rfl
  obtain ⟨hp7, hp10⟩ := fmt_level_length L
  have hen1 : self.is_enabled L = true := by simpa [Logger.is_enabled] using hen
  have hl : (fmt_level (loglevel_to_cstr L) ++ d.take n).length < MAX_LINE_LENGTH - 1 := by
    rw [List.length_append _ (cstr "\n"), cstr_newline, List.length_singleton] at hlen
    omega
  refine ⟨?_, ?_, ?_, by decide⟩
  · rw [Logger.log_view_spec self L d n hen1 hnul (by omega), if_pos hl]
  · have h0 := Logger.log_view_spec self L [] 0 hen1 (by simp)
      (by simp only [List.take_nil, List.append_nil]; omega)
    simp only [List.take_nil, List.append_nil] at h0
    rw [Logger.log_null_view, h0, if_pos (by omega)]
  · intro hwf hok
    obtain ⟨_, _, h3, _⟩ := RingBuffer.enqueue_spec self.buffer
      (fmt_level (loglevel_to_cstr L) ++ d.take n ++ cstr "\n")
      (fmt_level (loglevel_to_cstr L) ++ d.take n ++ cstr "\n").length hwf
    have := h3 hok
    rw [List.take_length] at this
    exact this

/-- Witness of C2: with the threshold `Warning`, `log(Error, "boom")` returns `true` and the
buffer holds `"[ERROR] boom\n"`; and the view of the first three bytes of `"hello"` logs
`"[ERROR] hel\n"`. -/
theorem Logger.log_short_line_witness :
    (warning_logger.log LogLevel.Error (StringView.of (cstr "boom"))).map
        (fun r => (r.1, r.2.buffer.unread)) = some (true, cstr "[ERROR] boom\n") ∧
    (warning_logger.log LogLevel.Error { data := some (cstr "hello"), size := 3 }).map
        (fun r => (r.1, r.2.buffer.unread)) = some (true, cstr "[ERROR] hel\n") ∧
    warning_logger.log LogLevel.Error { data := some (cstr "boom"), size := 4 } =
      some (warning_logger.enqueue_line
        (fmt_level (loglevel_to_cstr LogLevel.Error) ++ (cstr "boom").take 4 ++ cstr "\n")) ∧
    warning_logger.log LogLevel.Error { data := some (cstr "hello"), size := 3 } =
      some (warning_logger.enqueue_line
        (fmt_level (loglevel_to_cstr LogLevel.Error) ++ (cstr "hello").take 3 ++ cstr "\n")) :=
  ⟨by decide!, by decide!,
    (Logger.log_short_line warning_logger LogLevel.Error (cstr "boom") 4 (by decide)
      (by decide) (by decide)).1,
    (Logger.log_short_line warning_logger LogLevel.Error (cstr "hello") 3 (by decide)
      (by decide) (by decide)).1⟩

/-- C3, as amended: for every enabled level `L` and every message `m` without a NUL byte for
which `"[NAME] " + m + "\n"` is longer than `MAX_LINE_LENGTH` and `"[NAME] " + m` is at most
`INT_MAX` bytes long, both `log` overloads store nothing outside the line buffer and make one
`enqueue` of a truncated line: the first `MAX_LINE_LENGTH - 2` bytes of `"[NAME] " + m`, a
proper prefix that keeps the whole of `"[NAME] "`, followed by a newline as the last byte. The
line is no longer than `MAX_LINE_LENGTH`, and holds exactly one newline when `m` holds none. -/
theorem Logger.log_long_line (self : Logger) (L : LogLevel) (m : List Byte)
    (hen : self.threshold.toNat ≤ L.toNat) (hnul : ∀ c ∈ m, c ≠ 0)
    (hlen : MAX_LINE_LENGTH < (fmt_level (loglevel_to_cstr L) ++ m ++ cstr "\n").length)
    (hfit : (fmt_level (loglevel_to_cstr L) ++ m).length ≤ INT_MAX) :
    self.log L (StringView.of m) = some (self.enqueue_line
      ((fmt_level (loglevel_to_cstr L) ++ m).take (MAX_LINE_LENGTH - 2) ++ cstr "\n")) ∧
    self.log_fmt L (some m) = some (self.enqueue_line
      ((fmt_level (loglevel_to_cstr L) ++ m).take (MAX_LINE_LENGTH - 2) ++ cstr "\n")) ∧
    ((fmt_level (loglevel_to_cstr L) ++ m).take (MAX_LINE_LENGTH - 2) ++ cstr "\n").length ≤
      MAX_LINE_LENGTH ∧
    (fmt_level (loglevel_to_cstr L) ++ m).take (MAX_LINE_LENGTH - 2) <+:
      fmt_level (loglevel_to_cstr L) ++ m ∧
    ((fmt_level (loglevel_to_cstr L) ++ m).take (MAX_LINE_LENGTH - 2)).length <
      (fmt_level (loglevel_to_cstr L) ++ m).length ∧
    fmt_level (loglevel_to_cstr L) <+:
      (fmt_level (loglevel_to_cstr L) ++ m).take (MAX_LINE_LENGTH - 2) ∧
    ((fmt_level (loglevel_to_cstr L) ++ m).take (MAX_LINE_LENGTH - 2) ++ cstr "\n").getLast? =
      some 10 ∧
    ((10 : Byte) ∉ m →
      ((fmt_level (loglevel_to_cstr L) ++ m).take (MAX_LINE_LENGTH - 2) ++ cstr "\n").count 10
        = 1) := by
  have hM : MAX_LINE_LENGTH = 256 := rfl
  obtain ⟨hp7, hp10⟩ := fmt_level_length L
  have hl : ¬ (fmt_level (loglevel_to_cstr L) ++ m).length < MAX_LINE_LENGTH - 1 := by
    rw [List.length_append _ (cstr "\n"), cstr_newline, List.length_singleton] at hlen
    omega
  have hm : m.length ≤ INT_MAX := by
    rw [List.length_append] at hfit; omega
  have hen1 : self.is_enabled L = true := by simpa [Logger.is_enabled] using hen
  have htl : ((fmt_level (loglevel_to_cstr L) ++ m).take (MAX_LINE_LENGTH - 2)).length =
      MAX_LINE_LENGTH - 2 := by
    rw [List.length_take]; omega
  refine ⟨?_, ?_, ?_, List.take_prefix _ _, ?_, ?_, ?_, ?_⟩
  · rw [Logger.log_spec self L m hen1 hnul hfit, if_neg hl]
  · rw [Logger.log_fmt_spec self L m hen1 hm, if_neg hl]
  · rw [List.length_append, htl, cstr_newline, List.length_singleton]; omega
  · rw [htl]; omega
  · rw [List.take_append_eq_append_take, List.take_of_length_le (by omega)]
    exact List.prefix_append _ _
  · rw [cstr_newline]; simp
  · intro hnl
    rw [cstr_newline, List.count_append, List.count_singleton_self, Nat.add_left_eq_self,
      List.count_eq_zero]
    intro hmem
    rcases List.mem_append.mp (List.mem_of_mem_take hmem) with h | h
    · exact fmt_level_no_newline L h
    · exact hnl h

/-- Witness of C3 as amended: `log(Error, m)` for a message of 300 bytes `a` enqueues
`"[ERROR] "`, 246 bytes `a` and a newline. -/
theorem Logger.log_long_line_witness :
    (fmt_level (loglevel_to_cstr LogLevel.Error) ++ message_300).take (MAX_LINE_LENGTH - 2) ++
        cstr "\n" = cstr "[ERROR] " ++ List.replicate 246 97 ++ cstr "\n" ∧
    roomy_logger.log LogLevel.Error (StringView.of message_300) = some (roomy_logger.enqueue_line
      ((fmt_level (loglevel_to_cstr LogLevel.Error) ++ message_300).take (MAX_LINE_LENGTH - 2)
        ++ cstr "\n")) :=
  ⟨by decide!,
    (Logger.log_long_line roomy_logger LogLevel.Error message_300 (by decide) (by decide!)
      (by decide!) (by decide!)).1⟩

/-- Counterexample to C3 as stated: the level `Error` is enabled, the message of `2^31 - 8`
bytes `a` holds no NUL byte and makes a line longer than `MAX_LINE_LENGTH`, the buffer has room
for any line of up to 512 bytes, and yet `log` returns `false` and enqueues nothing:
`"[ERROR] " + m` is longer than `INT_MAX`, so `snprintf` returns a negative value. -/
theorem Logger.log_long_line_counterexample :
    roomy_logger.threshold.toNat ≤ LogLevel.Error.toNat ∧
    (∀ c ∈ message_huge, c ≠ 0) ∧
    MAX_LINE_LENGTH <
      (fmt_level (loglevel_to_cstr LogLevel.Error) ++ message_huge ++ cstr "\n").length ∧
    roomy_logger.log LogLevel.Error (StringView.of message_huge) = some (false, roomy_logger) ∧
    (∀ line : List Byte, line.length ≤ 512 → (roomy_logger.enqueue_line line).1 = true) := by
  have hlenm : message_huge.length = 2147483640 := List.length_replicate _ _
  have hnul : ∀ c ∈ message_huge, c ≠ 0 := by
    intro c hc
    rw [List.eq_of_mem_replicate hc]
    decide
  have hpre : (fmt_level (loglevel_to_cstr LogLevel.Error)).length = 8 := by decide
  refine ⟨by decide, hnul, ?_, ?_, ?_⟩
  · rw [List.length_append, List.length_append, hlenm, hpre]
    decide
  · have hI : INT_MAX = 2147483647 := rfl
    unfold Logger.log
    generalize hb : List.replicate MAX_LINE_LENGTH (0 : Byte) = buf
    have hbuf : buf.length = 256 := by
      rw [← hb]; exact List.length_replicate _ _
    have hen : roomy_logger.is_enabled LogLevel.Error = true := by decide
    simp only [hen, not_true_eq_false, if_false, StringView.of, reduceCtorEq, false_and,
      Option.getD_some, min_eq_left (show message_huge.length ≤ INT_MAX by omega),
      fmt_precision_eq message_huge message_huge.length (le_refl _) hnul]
    unfold snprintf
    rw [vsnprintf_spec buf 0 buf.length _ (by omega) (by omega),
      printf_ret_of_gt _ (by rw [List.length_append, hlenm, hpre, hI]; decide)]
    simp
  · intro line hline
    show (roomy_logger.buffer.enqueue line line.length).1 = true
    unfold RingBuffer.enqueue
    rw [if_pos (by
      show line.length ≤ 512 - 0
      omega)]

/-- C9, as amended: for every enabled level `L` and every message `m` without a NUL byte for
which `"[NAME] " + m + "\n"` is exactly `MAX_LINE_LENGTH` bytes long, both `log` overloads make
one `enqueue` of `"[NAME] "`, all of `m` but its last byte, and a newline: a line of
`MAX_LINE_LENGTH - 1` bytes. -/
theorem Logger.log_exact_line (self : Logger) (L : LogLevel) (m : List Byte)
    (hen : self.threshold.toNat ≤ L.toNat) (hnul : ∀ c ∈ m, c ≠ 0)
    (hlen : (fmt_level (loglevel_to_cstr L) ++ m ++ cstr "\n").length = MAX_LINE_LENGTH) :
    self.log L (StringView.of m) = some (self.enqueue_line
      (fmt_level (loglevel_to_cstr L) ++ m.dropLast ++ cstr "\n")) ∧
    self.log_fmt L (some m) = some (self.enqueue_line
      (fmt_level (loglevel_to_cstr L) ++ m.dropLast ++ cstr "\n")) ∧
    (fmt_level (loglevel_to_cstr L) ++ m.dropLast ++ cstr "\n").length =
      MAX_LINE_LENGTH - 1 ∧
    m.dropLast.length + 1 = m.length := by
  have hM : MAX_LINE_LENGTH = 256 := rfl
  have hI : INT_MAX = 2147483647 := rfl
  obtain ⟨hp7, hp10⟩ := fmt_level_length L
  rw [List.length_append _ (cstr "\n"), cstr_newline, List.length_singleton] at hlen
  have hl : ¬ (fmt_level (loglevel_to_cstr L) ++ m).length < MAX_LINE_LENGTH - 1 := by omega
  have hlm := hlen
  rw [List.length_append] at hlm
  have hen1 : self.is_enabled L = true := by simpa [Logger.is_enabled] using hen
  have hne : m ≠ [] := by
    intro h
    rw [h] at hlm
    simp at hlm
    omega
  have htake : (fmt_level (loglevel_to_cstr L) ++ m).take (MAX_LINE_LENGTH - 2) =
      fmt_level (loglevel_to_cstr L) ++ m.dropLast := by
    rw [← List.dropLast_append_of_ne_nil _ hne, List.dropLast_eq_take]
    congr 1
    omega
  refine ⟨?_, ?_, ?_, ?_⟩
  · rw [Logger.log_spec self L m hen1 hnul (by omega), if_neg hl, htake]
  · rw [Logger.log_fmt_spec self L m hen1 (by omega), if_neg hl, htake]
  · simp only [List.length_append, List.length_dropLast, cstr_newline, List.length_singleton]
    omega
  · rw [List.length_dropLast]
    have : 0 < m.length := List.length_pos.mpr hne
    omega

/-- Witness of C9 as amended: `log(Error, m)` for a message of 247 bytes `a`. -/
theorem Logger.log_exact_line_witness :
    (roomy_logger.log LogLevel.Error (StringView.of message_247)).map
        (fun r => (r.1, r.2.buffer.unread)) =
      some (true, cstr "[ERROR] " ++ List.replicate 246 97 ++ cstr "\n") ∧
    roomy_logger.log LogLevel.Error (StringView.of message_247) = some (roomy_logger.enqueue_line
      (fmt_level (loglevel_to_cstr LogLevel.Error) ++ message_247.dropLast ++ cstr "\n")) :=
  ⟨by decide!,
    (Logger.log_exact_line roomy_logger LogLevel.Error message_247 (by decide) (by decide!)
      (by decide!)).1⟩

/-- Counterexample to C9 as stated: the level `Error` is enabled and the message of 247 bytes
`a` makes a line `"[ERROR] " + m + "\n"` of exactly 256 bytes, which the buffer has room for;
`log` enqueues 255 bytes, not the complete line: the last byte of `m` is dropped. -/
theorem Logger.log_exact_line_counterexample :
    roomy_logger.threshold.toNat ≤ LogLevel.Error.toNat ∧
    (∀ c ∈ message_247, c ≠ 0) ∧
    (fmt_level (loglevel_to_cstr LogLevel.Error) ++ message_247 ++ cstr "\n").length =
      MAX_LINE_LENGTH ∧
    (roomy_logger.enqueue_line
      (fmt_level (loglevel_to_cstr LogLevel.Error) ++ message_247 ++ cstr "\n")).1 = true ∧
    roomy_logger.log LogLevel.Error (StringView.of message_247) ≠
      some (roomy_logger.enqueue_line
        (fmt_level (loglevel_to_cstr LogLevel.Error) ++ message_247 ++ cstr "\n")) ∧
    (roomy_logger.log LogLevel.Error (StringView.of message_247)).map
        (fun r => (r.1, r.2.buffer.unread)) =
      some (true, cstr "[ERROR] " ++ List.replicate 246 97 ++ cstr "\n") := by
  refine ⟨by decide, by decide!, by decide!, by decide!, by decide!, by decide!⟩

/-! ## Properties of `flush` -/

/-- C4: for every ring buffer satisfying the RingBuffer contract and every sink and system,
the bytes `D` the system accepted during one `flush()`, in call order, followed by the bytes
left unread when it returns, are the bytes that were unread when it was called; and in every
round of the loop the write returns at most the contiguous-run length it was given, the bytes
accepted in that round are the first unread bytes, exactly as many as the write returned, and
the read cursor advances by that number (or `flush` returns `false` when it is 0). -/
theorem Logger.flush_delivers_in_order (self : Logger) (w : World) (hwf : self.buffer.WF) :
    (∃ D, accepted (self.flush w).2.2.trace = accepted w.trace ++ D ∧
      D ++ (self.flush w).2.1.buffer.unread = self.buffer.unread) ∧
    (∀ (l : Logger) (w1 : World) (fuel : Nat), l.buffer.WF → l.buffer.get_used_size ≠ 0 →
      (l.sink.write l.buffer.get_direct_dequeue_ptr l.buffer.get_direct_dequeue_size w1).1 ≤
        l.buffer.get_direct_dequeue_size ∧
      accepted (l.sink.write l.buffer.get_direct_dequeue_ptr
          l.buffer.get_direct_dequeue_size w1).2.trace =
        accepted w1.trace ++ l.buffer.unread.take
          (l.sink.write l.buffer.get_direct_dequeue_ptr l.buffer.get_direct_dequeue_size w1).1 ∧
      (l.buffer.unread.take
          (l.sink.write l.buffer.get_direct_dequeue_ptr
            l.buffer.get_direct_dequeue_size w1).1).length =
        (l.sink.write l.buffer.get_direct_dequeue_ptr l.buffer.get_direct_dequeue_size w1).1 ∧
      Logger.flush_loop (fuel + 1) l w1 =
        if (l.sink.write l.buffer.get_direct_dequeue_ptr
            l.buffer.get_direct_dequeue_size w1).1 = 0 then
          some (false, l, (l.sink.write l.buffer.get_direct_dequeue_ptr
            l.buffer.get_direct_dequeue_size w1).2)
        else
          Logger.flush_loop fuel
            { l with buffer := (l.buffer.advance_read_index
                (l.sink.write l.buffer.get_direct_dequeue_ptr
                  l.buffer.get_direct_dequeue_size w1).1) }
            (l.sink.write l.buffer.get_direct_dequeue_ptr
              l.buffer.get_direct_dequeue_size w1).2) := by
  constructor
  · obtain ⟨evs, e1, _, _, _, e5, _⟩ := Logger.flush_spec self w hwf
    exact ⟨accepted evs, by rw [e1.1, accepted_append], e5⟩
  · intro l w1 fuel hl hne
    obtain ⟨evs, e1, e2, e3, _⟩ := Logger.write_run_spec l w1 hl
    refine ⟨e2, by rw [e1.1, accepted_append, e3], ?_, Logger.flush_loop_succ fuel l w1 hl hne⟩
    have hu : l.buffer.unread.length = l.buffer.used_count := by
      simp [RingBuffer.unread]
    have hc : l.buffer.get_direct_dequeue_size ≤ l.buffer.used_count := Nat.min_le_left _ _
    rw [List.length_take, hu]
    omega

/-- Witness of C4: on the wrapped buffer `abcde` and a system that accepts `ab`, `c`, `d` and
then refuses, `flush` returns `false`, the system has accepted `abcd` and `e` is left; the
first write returns no more than the run of three bytes it was given. -/
theorem Logger.flush_delivers_in_order_witness :
    wrapped_logger.buffer.WF ∧
    wrapped_logger.buffer.unread = cstr "abcde" ∧
    (wrapped_logger.flush slow_world).1 = false ∧
    accepted (wrapped_logger.flush slow_world).2.2.trace = cstr "abcd" ∧
    (wrapped_logger.flush slow_world).2.1.buffer.unread = cstr "e" ∧
    (∃ D, accepted (wrapped_logger.flush slow_world).2.2.trace = accepted slow_world.trace ++ D ∧
      D ++ (wrapped_logger.flush slow_world).2.1.buffer.unread = wrapped_logger.buffer.unread) ∧
    (wrapped_logger.sink.write wrapped_logger.buffer.get_direct_dequeue_ptr
        wrapped_logger.buffer.get_direct_dequeue_size slow_world).1 ≤
      wrapped_logger.buffer.get_direct_dequeue_size :=
  ⟨by decide!, by decide!, by decide!, by decide!, by decide!,
    (Logger.flush_delivers_in_order wrapped_logger slow_world (by decide!)).1,
    ((Logger.flush_delivers_in_order wrapped_logger slow_world (by decide!)).2
      wrapped_logger slow_world 0 (by decide!) (by decide!)).1⟩

/-- C5: for every non-empty ring buffer, if the sink's `write` returns 0 on the first attempt
of a `flush()` call, then `flush()` returns `false`, the Logger (read cursor, `used_count`,
buffered bytes) is as before the call, the world is the one that first attempt left (no
further call is made) and no byte was accepted. -/
theorem Logger.flush_zero_write_fails (self : Logger) (w : World) (hwf : self.buffer.WF)
    (hne : self.buffer.get_used_size ≠ 0)
    (hzero : (self.sink.write self.buffer.get_direct_dequeue_ptr
      self.buffer.get_direct_dequeue_size w).1 = 0) :
    self.flush w = (false, self, (self.sink.write self.buffer.get_direct_dequeue_ptr
      self.buffer.get_direct_dequeue_size w).2) ∧
    (self.flush w).2.1.buffer.unread = self.buffer.unread ∧
    accepted (self.flush w).2.2.trace = accepted w.trace := by
  have hfl : self.flush w = (false, self, (self.sink.write self.buffer.get_direct_dequeue_ptr
      self.buffer.get_direct_dequeue_size w).2) := by
    obtain ⟨k, hk⟩ : ∃ k, self.buffer.get_used_size = k + 1 :=
      ⟨self.buffer.get_used_size - 1, by omega⟩
    unfold Logger.flush
    rw [hk, Logger.flush_loop_succ k self w hwf hne]
    simp [hzero]
  obtain ⟨evs, e1, _, e3, _⟩ := Logger.write_run_spec self w hwf
  rw [hzero] at e3
  refine ⟨hfl, by rw [hfl], ?_⟩
  rw [hfl]
  show accepted (self.sink.write self.buffer.get_direct_dequeue_ptr
      self.buffer.get_direct_dequeue_size w).2.trace = _
  rw [e1.1, accepted_append, e3]
  simp

/-- Witness of C5: the wrapped buffer `abcde` against a system that accepts nothing. -/
theorem Logger.flush_zero_write_fails_witness :
    wrapped_logger.buffer.WF ∧ wrapped_logger.buffer.get_used_size = 5 ∧
    wrapped_logger.flush refusing_world =
      (false, wrapped_logger,
        { win32 := false, responses := [], trace := [OsCall.fwrite stderr_fp 3 []] }) ∧
    (wrapped_logger.flush refusing_world).2.1.buffer.unread = wrapped_logger.buffer.unread :=
  ⟨by decide!, by decide!, by decide!,
    (Logger.flush_zero_write_fails wrapped_logger refusing_world (by decide!) (by decide!)
      (by decide!)).2.1⟩

/-- C10: for every ring buffer satisfying the RingBuffer contract and every sink and system,
the loop of `flush()` ends within `used_count` rounds (more fuel changes nothing), and whenever
`flush()` returns `true` the ring buffer is empty and the system has accepted, in order, every
byte that was unread when `flush()` was called. -/
theorem Logger.flush_terminates_and_drains (self : Logger) (w : World) (hwf : self.buffer.WF) :
    (∃ r, Logger.flush_loop self.buffer.get_used_size self w = some r ∧
      ∀ fuel, self.buffer.get_used_size ≤ fuel → Logger.flush_loop fuel self w = some r) ∧
    ((self.flush w).1 = true →
      (self.flush w).2.1.buffer.get_used_size = 0 ∧
      accepted (self.flush w).2.2.trace = accepted w.trace ++ self.buffer.unread) := by
  constructor
  · obtain ⟨r, hr⟩ := Logger.flush_loop_total self w hwf
    refine ⟨r, hr, ?_⟩
    intro fuel hfuel
    rw [← hr]
    exact Logger.flush_loop_fuel fuel _ self w hwf hfuel (le_refl _)
  · intro htrue
    obtain ⟨evs, e1, _, _, _, e5, e6⟩ := Logger.flush_spec self w hwf
    have h0 := e6 htrue
    refine ⟨h0, ?_⟩
    rw [Logger.unread_nil_of_used_zero _ h0, List.append_nil] at e5
    rw [e1.1, accepted_append, e5]

/-- Witness of C10: the wrapped buffer `abcde` against a system that accepts every request:
`flush` returns `true`, the buffer is empty and `abcde` went out in that order. -/
theorem Logger.flush_terminates_and_drains_witness :
    wrapped_logger.buffer.WF ∧ (wrapped_logger.flush willing_world).1 = true ∧
    (wrapped_logger.flush willing_world).2.1.buffer.get_used_size = 0 ∧
    accepted (wrapped_logger.flush willing_world).2.2.trace = cstr "abcde" ∧
    ((wrapped_logger.flush willing_world).2.1.buffer.get_used_size = 0 ∧
      accepted (wrapped_logger.flush willing_world).2.2.trace =
        accepted willing_world.trace ++ wrapped_logger.buffer.unread) :=
  ⟨by decide!, by decide!, by decide!, by decide!,
    (Logger.flush_terminates_and_drains wrapped_logger willing_world (by decide!)).2
      (by decide!)⟩

/-! ## Properties of reconfiguration and `close` -/

/-- C6: for each of `set_backend`, `set_target_stdout`, `set_target_stderr` and
`set_target_file` (allocation failure apart): if the newly built sink fails to open, or the
file path is empty, the setter returns `false`, the Logger's active sink (backend, target,
path, handle), ring buffer and threshold are exactly as before the call, no write and no
stream flush was performed and, on a Logger whose sink keeps the invariant of the setters (a
`FILE` target has a non-empty path), no handle was released. -/
theorem Logger.failed_reconfiguration_changes_nothing (self : Logger) (w : World) :
    (∀ backend : SinkBackend,
      (Sink.open_
          { backend := backend, target := self.sink.target, filepath := self.sink.filepath,
            handle := Handle.fp stderr_fp } w).1 = false →
      self.untouched w (self.set_backend backend w)) ∧
    ((Sink.open_
          { backend := self.sink.backend, target := SinkTarget.STDOUT, filepath := [],
            handle := Handle.fp stderr_fp } w).1 = false →
      self.untouched w (self.set_target_stdout w)) ∧
    ((Sink.open_
          { backend := self.sink.backend, target := SinkTarget.STDERR, filepath := [],
            handle := Handle.fp stderr_fp } w).1 = false →
      self.untouched w (self.set_target_stderr w)) ∧
    (∀ filepath : List Byte,
      (filepath = [] ∨
        (Sink.open_
            { backend := self.sink.backend, target := SinkTarget.FILE, filepath := filepath,
              handle := Handle.fp stderr_fp } w).1 = false) →
      self.untouched w (self.set_target_file filepath w)) := by
  refine ⟨?_, ?_, ?_, ?_⟩
  · intro backend hfail
    exact Logger.install_failed self _ w (fun h => h) hfail
  · intro hfail
    exact Logger.install_failed self _ w (fun _ h => by cases h) hfail
  · intro hfail
    exact Logger.install_failed self _ w (fun _ h => by cases h) hfail
  · intro filepath hfail
    unfold Logger.set_target_file
    by_cases hp : filepath = []
    · simp only [hp, if_true]
      refine ⟨rfl, rfl, [], ?_, by simp, by simp⟩
      show (Sink.create.destroy w).trace = w.trace ++ []
      unfold Sink.destroy
      rw [Sink.close_of_not_file _ _ (by decide), List.append_nil]
    · simp only [hp, if_false]
      rcases hfail with h | h
      · exact absurd h hp
      · exact Logger.install_failed self _ w (fun _ _ => hp) h

/-- Witness of C6: `set_target_file("")` returns `false` and changes nothing, not even the
world; and so does `set_target_file("a.log")` when the file cannot be opened, the failed
`fopen` being the only call. -/
theorem Logger.failed_reconfiguration_changes_nothing_witness :
    pending_logger.set_target_file [] refusing_world =
      (false, pending_logger, refusing_world) ∧
    pending_logger.set_target_file (cstr "a.log") refusing_world =
      (false, pending_logger,
        { win32 := false, responses := [], trace := [OsCall.fopen (cstr "a.log") 0] }) ∧
    pending_logger.untouched refusing_world
      (pending_logger.set_target_file [] refusing_world) ∧
    pending_logger.untouched refusing_world
      (pending_logger.set_target_file (cstr "a.log") refusing_world) :=
  ⟨by decide!, by decide!,
    (Logger.failed_reconfiguration_changes_nothing pending_logger refusing_world).2.2.2 []
      (Or.inl rfl),
    (Logger.failed_reconfiguration_changes_nothing pending_logger refusing_world).2.2.2
      (cstr "a.log") (Or.inr (by decide!))⟩

/-- C7, as amended: for every reconfiguration that succeeds (`set_backend`,
`set_target_stdout`, `set_target_stderr` or `set_target_file` returns `true`) on a ring buffer
satisfying the RingBuffer contract, `flush()` runs through the old sink after the new sink was
opened and before the active sink is replaced, and its result is not looked at; when that
`flush()` returns `true`, the ring buffer is empty at the moment of replacement and every byte
buffered before the call has been accepted through the old sink. -/
theorem Logger.reconfiguration_flushes_first (self : Logger) (w : World)
    (hwf : self.buffer.WF) :
    (∀ backend : SinkBackend, (self.set_backend backend w).1 = true →
      self.switched w (self.set_backend backend w)) ∧
    ((self.set_target_stdout w).1 = true → self.switched w (self.set_target_stdout w)) ∧
    ((self.set_target_stderr w).1 = true → self.switched w (self.set_target_stderr w)) ∧
    (∀ filepath : List Byte, (self.set_target_file filepath w).1 = true →
      self.switched w (self.set_target_file filepath w)) := by
  refine ⟨?_, ?_, ?_, ?_⟩
  · intro backend hok
    exact Logger.install_succeeded self _ w hwf hok
  · intro hok
    exact Logger.install_succeeded self _ w hwf hok
  · intro hok
    exact Logger.install_succeeded self _ w hwf hok
  · intro filepath
    unfold Logger.set_target_file
    by_cases hp : filepath = []
    · simp only [hp, if_true]
      intro hok
      exact absurd hok (by decide)
    · simp only [hp, if_false]
      intro hok
      exact Logger.install_succeeded self _ w hwf hok

/-- Witness of C7 as amended: five wrapped bytes `abcde` and a system that accepts every
request: `set_target_stdout` returns `true`, the bytes went to `stderr`, the old stream, in
order, the buffer is empty and the active sink is `stdout`. -/
theorem Logger.reconfiguration_flushes_first_witness :
    wrapped_logger.buffer.WF ∧
    (wrapped_logger.set_target_stdout willing_world).1 = true ∧
    (wrapped_logger.set_target_stdout willing_world).2.1.buffer.get_used_size = 0 ∧
    (wrapped_logger.set_target_stdout willing_world).2.1.sink =
      { backend := SinkBackend.STDIO, target := SinkTarget.STDOUT, filepath := [],
        handle := Handle.fp stdout_fp } ∧
    (wrapped_logger.set_target_stdout willing_world).2.2.trace =
      [OsCall.fwrite stderr_fp 3 (cstr "abc"), OsCall.fwrite stderr_fp 2 (cstr "de"),
        OsCall.fflush stderr_fp 0] ∧
    wrapped_logger.switched willing_world (wrapped_logger.set_target_stdout willing_world) :=
  ⟨by decide!, by decide!, by decide!, by decide!, by decide!,
    (Logger.reconfiguration_flushes_first wrapped_logger willing_world (by decide!)).2.1
      (by decide!)⟩

/-- Counterexample to C7 as stated: three bytes `abc` are buffered and the old sink
(`stderr`) accepts nothing; `set_target_stdout` returns `true` with the three bytes still in
the ring buffer when the sink is replaced, and the next `flush` writes them to `stdout`, the
new destination. -/
theorem Logger.reconfiguration_flushes_first_counterexample :
    pending_logger.buffer.WF ∧
    pending_logger.buffer.unread = cstr "abc" ∧
    (pending_logger.set_target_stdout stalled_world).1 = true ∧
    (pending_logger.set_target_stdout stalled_world).2.1.buffer.get_used_size = 3 ∧
    (pending_logger.set_target_stdout stalled_world).2.1.buffer.unread = cstr "abc" ∧
    (pending_logger.set_target_stdout stalled_world).2.2.trace =
      [OsCall.fwrite stderr_fp 3 []] ∧
    ((pending_logger.set_target_stdout stalled_world).2.1.flush
        (pending_logger.set_target_stdout stalled_world).2.2).2.2.trace =
      [OsCall.fwrite stderr_fp 3 [], OsCall.fwrite stdout_fp 3 (cstr "abc"),
        OsCall.fflush stdout_fp 0] := by
  refine ⟨by decide!, by decide!, by decide!, by decide!, by decide!, by decide!, by decide!⟩

/-- C8: `Sink::close` is idempotent: for every sink and world, a second `close` changes
neither the sink nor the world (it makes no call at all); the first makes at most one call, a
release of the handle; and on a sink whose target is not `FILE` (`STDOUT` or `STDERR`),
`close` makes no call and leaves the sink unchanged. -/
theorem Sink.close_idempotent (s : Sink) (w : World) :
    (s.close w).1.close (s.close w).2 = s.close w ∧
    ((s.close w).2 = w ∨ ∃ c, c.is_release = true ∧ (s.close w).2 = w.noted c) ∧
    (s.target = SinkTarget.FILE ∨ s.close w = (s, w)) := by
  refine ⟨?_, ?_, ?_⟩
  · unfold Sink.close
    cases ht : s.target <;> cases hb : s.backend <;> by_cases hw : w.win32 = true <;>
      simp [ht, hb, hw, Handle.get_fp, Handle.get_fd, Handle.get_windows_handle,
        INVALID_HANDLE_VALUE, World.noted]
  · rcases Sink.close_world s w with h | ⟨c, h1, _, h2⟩
    · exact Or.inl h
    · exact Or.inr ⟨c, h1, h2⟩
  · by_cases ht : s.target = SinkTarget.FILE
    · exact Or.inl ht
    · exact Or.inr (Sink.close_of_not_file s w ht)

/-- Witness of C8: closing a sink on an open file releases the handle once; closing it again
makes no call. -/
theorem Sink.close_idempotent_witness :
    (file_sink.close refusing_world).2.trace = [OsCall.fclose 7] ∧
    ((file_sink.close refusing_world).1.close (file_sink.close refusing_world).2).2.trace =
      [OsCall.fclose 7] ∧
    (file_sink.close refusing_world).1.close (file_sink.close refusing_world).2 =
      file_sink.close refusing_world :=
  ⟨by decide!, by decide!, (Sink.close_idempotent file_sink refusing_world).1⟩
